import Mathlib

/-!
# Gamification ledger and content heuristics

A verification development for `backend/models/User.js` (the methods
`calculateLevel` and `addPoints`), for the user-statistics updates performed by the
routes of `backend/api/evaluateAssignment.js` and `backend/api/saveBlog.js`, and for
the content heuristics of `backend/utils/plagiarismCheck.js` together with the text
utilities of `backend/utils/textExtract.js` (`cleanText`, the counting functions and
`getTextStats`).

Modelling conventions.

* JavaScript numbers that hold counts and points (`points`, `level`,
  `totalAssignmentsEvaluated`, `totalBlogsPublished`) are exact integers (`Int`).
* `averageScore`, an evaluation score and the percentages of the heuristics are exact
  rationals (`ℚ`); a quotient is `none` when its divisor is zero, where JavaScript
  yields a non-finite number. The code holds the binary64 number nearest to each
  quotient and product, and `toFixed` renders that number: at a rounding tie the last
  digit of the rendered string can differ from the rendering of the exact value (7
  matches in 224 words are 31.25 exactly and '31.2' in the code). What is proved of
  every text (C15, C17, C19, C29) therefore speaks of the counts, the value, its
  bounds and its label; a rendered string is stated only at values where both
  renderings agree (C12, C21, C22, C25).
* A method that mutates `this` and returns a value becomes a function from the
  state before the call to the pair (state after the call, returned value).
* A badge record carries the fields written by `addPoints` (`name`,
  `description`, `icon`); the schema-defaulted `earnedAt` stamp is never read by
  the ledger and is left out.
* A string is the list of its UTF-16 code units, each written as a `Char`.
* A regular expression is a term of `Pattern`; matching lists the lengths a
  backtracking matcher can consume, in the order in which it tries them. The literals
  of the pattern tables are ASCII, so comparison under the `i` flag is comparison of
  the ASCII upper-case forms.
* `toLowerCase` is a parameter of the functions that call it.
-/

namespace Ledger

/-- An entry of the `badges` array of the user schema. -/
structure Badge where
  name : String
  description : String
  icon : String
  deriving DecidableEq, Repr

/-- The gamification and statistics fields of the user schema. -/
structure User where
  points : Int
  level : Int
  badges : List Badge
  totalAssignmentsEvaluated : Int
  totalBlogsPublished : Int
  averageScore : ℚ
  deriving DecidableEq

/-- The schema defaults: a user record as it is first created. -/
def freshUser : User :=
  { points := 0, level := 1, badges := [],
    totalAssignmentsEvaluated := 0, totalBlogsPublished := 0, averageScore := 0 }

/-- The constant `pointsPerLevel` of `calculateLevel`. -/
def pointsPerLevel : Int := 100

/-- Method `calculateLevel`: `this.level = Math.floor(this.points / pointsPerLevel) + 1`.
The second component is the returned level. -/
def calculateLevel (u : User) : User × Int :=
  let u1 : User := { u with level := Int.fdiv u.points pointsPerLevel + 1 }
  (u1, u1.level)

/-- The test `this.badges.find(b => b.name === n)` taken as a truth value. -/
def hasBadge (bs : List Badge) (n : String) : Bool :=
  (bs.find? (fun b => b.name == n)).isSome

/-- Method `addPoints(points, reason)`. The first component is the user after the
call, the second the returned array of newly granted badges. -/
def addPoints (u : User) (points : Int) (reason : String) : User × List Badge :=
  let _ := reason
  let u1 : User := { u with points := u.points + points }
  let u2 : User := (calculateLevel u1).1
  let b0 : List Badge := []
  let b1 :=
    if u2.totalAssignmentsEvaluated ≥ 1 ∧ ¬ hasBadge u2.badges "First Evaluation" then
      b0 ++ [{ name := "First Evaluation",
               description := "Completed your first assignment evaluation", icon := "🎯" }]
    else b0
  let b2 :=
    if u2.totalAssignmentsEvaluated ≥ 10 ∧ ¬ hasBadge u2.badges "Dedicated Learner" then
      b1 ++ [{ name := "Dedicated Learner",
               description := "Evaluated 10 assignments", icon := "📚" }]
    else b1
  let b3 :=
    if u2.totalAssignmentsEvaluated ≥ 50 ∧ ¬ hasBadge u2.badges "Writing Master" then
      b2 ++ [{ name := "Writing Master",
               description := "Evaluated 50 assignments", icon := "✨" }]
    else b2
  let b4 :=
    if u2.averageScore ≥ 8 ∧ u2.totalAssignmentsEvaluated ≥ 5
        ∧ ¬ hasBadge u2.badges "Excellence" then
      b3 ++ [{ name := "Excellence",
               description := "Maintained average score of 8+", icon := "🏆" }]
    else b3
  let b5 :=
    if u2.totalBlogsPublished ≥ 1 ∧ ¬ hasBadge u2.badges "First Blog" then
      b4 ++ [{ name := "First Blog",
               description := "Published your first blog", icon := "✍️" }]
    else b4
  let b6 :=
    if u2.totalBlogsPublished ≥ 10 ∧ ¬ hasBadge u2.badges "Prolific Writer" then
      b5 ++ [{ name := "Prolific Writer",
               description := "Published 10 blogs", icon := "📝" }]
    else b5
  ({ u2 with badges := u2.badges ++ b6 }, b6)

/-- The statistics update of the two evaluation routes (`POST /` and
`POST /text`), applied to a user that was found:
increment the counter, recompute the average, award `10 + Math.floor(score)`. -/
def updateUserStats (u : User) (score : ℚ) (reason : String) : User × List Badge :=
  let u1 : User := { u with totalAssignmentsEvaluated := u.totalAssignmentsEvaluated + 1 }
  let totalScore : ℚ := u1.averageScore * ((u1.totalAssignmentsEvaluated - 1 : Int) : ℚ) + score
  let u2 : User := { u1 with averageScore := totalScore / (u1.totalAssignmentsEvaluated : ℚ) }
  let pointsEarned : Int := 10 + Rat.floor score
  addPoints u2 pointsEarned reason

/-- One `addPoints` call together with the values the caller wrote into the three
counters just before it. -/
structure Call where
  totalAssignmentsEvaluated : Int
  totalBlogsPublished : Int
  averageScore : ℚ
  delta : Int
  reason : String

/-- The caller overwrites the counters, then calls `addPoints`. -/
def stepCall (u : User) (c : Call) : User :=
  (addPoints { u with totalAssignmentsEvaluated := c.totalAssignmentsEvaluated,
                      totalBlogsPublished := c.totalBlogsPublished,
                      averageScore := c.averageScore } c.delta c.reason).1

/-- A sequence of calls, applied in order. -/
def runCalls (u : User) (cs : List Call) : User :=
  cs.foldl stepCall u

/-- A sequence of plain `addPoints` calls (delta and reason), counters untouched. -/
def runAddPoints (u : User) (ds : List (Int × String)) : User :=
  ds.foldl (fun v d => (addPoints v d.1 d.2).1) u

/-- The evaluation step applied for each (score, reason) of a list in turn. -/
def runEvaluations (u : User) (evs : List (ℚ × String)) : User :=
  evs.foldl (fun v e => (updateUserStats v e.1 e.2).1) u

/-- A sample call: the counters after a tenth evaluation, delta 18. -/
def evaluationCall : Call :=
  { totalAssignmentsEvaluated := 10, totalBlogsPublished := 1, averageScore := 9,
    delta := 18, reason := "Assignment evaluation" }

/-- A sample call: the counters after a second published blog, delta 20. -/
def blogCall : Call :=
  { totalAssignmentsEvaluated := 10, totalBlogsPublished := 2, averageScore := 9,
    delta := 20, reason := "Blog published" }

/-- The statistics update of `POST /` in `saveBlog.js`, applied to a user that was
found: a blog created with the status 'published' counts as a publication and awards
20 points; with any other status the user is left as it is. -/
def publishOnCreate (status : String) (u : User) : User :=
  if status = "published" then
    let u1 : User := { u with totalBlogsPublished := u.totalBlogsPublished + 1 }
    let pointsEarned : Int := 20
    (addPoints u1 pointsEarned "Blog published").1
  else u

/-- The six badge names in the order in which `addPoints` tests them. -/
def badgeNames : List String :=
  ["First Evaluation", "Dedicated Learner", "Writing Master", "Excellence",
   "First Blog", "Prolific Writer"]

/-- The rule attached to each badge name, following the list of six rules of the
specification; every other name has no rule. -/
def ruleHolds (u : User) (n : String) : Bool :=
  if n = "First Evaluation" then decide (u.totalAssignmentsEvaluated ≥ 1)
  else if n = "Dedicated Learner" then decide (u.totalAssignmentsEvaluated ≥ 10)
  else if n = "Writing Master" then decide (u.totalAssignmentsEvaluated ≥ 50)
  else if n = "Excellence" then
    decide (u.averageScore ≥ 8 ∧ u.totalAssignmentsEvaluated ≥ 5)
  else if n = "First Blog" then decide (u.totalBlogsPublished ≥ 1)
  else if n = "Prolific Writer" then decide (u.totalBlogsPublished ≥ 10)
  else false

/-- The names a call of `addPoints` on `u` is due to grant: rule holds, badge not held. -/
def dueNames (u : User) : List String :=
  badgeNames.filter (fun n => ruleHolds u n && !hasBadge u.badges n)

/-- The part of a blog record read by the update route. -/
structure Blog where
  status : String
  deriving DecidableEq

/-- The status handling of `PUT /:id` in `saveBlog.js`, for a blog and an author that
were found; `status` is the status of the request body, `none` when it is absent or
empty. The first component is the blog after the update, the second the author. -/
def updateBlog (blog : Blog) (status : Option String) (u : User) : Blog × User :=
  let wasNotPublished : Bool := blog.status != "published"
  let blog1 : Blog :=
    match status with
    | some s => { blog with status := s }
    | none => blog
  if wasNotPublished ∧ status = some "published" then
    let u1 : User := { u with totalBlogsPublished := u.totalBlogsPublished + 1 }
    (blog1, (addPoints u1 20 "Blog published").1)
  else (blog1, u)

end Ledger

namespace Heuristics

/-- A JavaScript string, as the list of its UTF-16 code units; each code unit is
written as a `Char`. -/
abbrev Str := List Char

/-- The class `\s` of a JavaScript regular expression, which is also the set of
characters removed by `String.prototype.trim`. -/
def isWhiteSpace (c : Char) : Bool :=
  c.val = 0x09 || c.val = 0x0A || c.val = 0x0B || c.val = 0x0C || c.val = 0x0D
  || c.val = 0x20 || c.val = 0xA0 || c.val = 0x1680
  || (0x2000 ≤ c.val && c.val ≤ 0x200A)
  || c.val = 0x2028 || c.val = 0x2029 || c.val = 0x202F || c.val = 0x205F
  || c.val = 0x3000 || c.val = 0xFEFF

/-- The class `\w`: ASCII letters, digits and the underscore. -/
def isWordChar (c : Char) : Bool :=
  c.isAlphanum || c = '_'

/-- The class `[.!?]`. -/
def isSentenceEnd (c : Char) : Bool :=
  c = '.' || c = '!' || c = '?'

/-- The regular-expression syntax used by the pattern tables. -/
inductive Pattern where
  | lit (c : Char)
  | cls (p : Char → Bool)
  | plus (p : Char → Bool)
  | seq (a b : Pattern)
  | alt (a b : Pattern)
  | opt (a : Pattern)
  | eps

/-- Canonical form of a code unit for comparison under the `i` flag. -/
def canonicalize (ignoreCase : Bool) (c : Char) : Char :=
  if ignoreCase then c.toUpper else c

/-- Match lengths of a greedy class repetition `p+`: longest first. -/
def plusLens (p : Char → Bool) : Str → List Nat
  | [] => []
  | c :: cs => if p c then (plusLens p cs).map (· + 1) ++ [1] else []

/-- All lengths a pattern can match at the start of `s`, in the order in which a
backtracking matcher tries them; the head is the match the matcher reports. -/
def Pattern.lens (ignoreCase : Bool) : Pattern → Str → List Nat
  | .lit c, s =>
    match s with
    | [] => []
    | d :: _ => if canonicalize ignoreCase d = canonicalize ignoreCase c then [1] else []
  | .cls p, s =>
    match s with
    | [] => []
    | d :: _ => if p d then [1] else []
  | .plus p, s => plusLens p s
  | .seq a b, s =>
    (a.lens ignoreCase s).flatMap
      (fun n => (b.lens ignoreCase (s.drop n)).map (fun m => n + m))
  | .alt a b, s => a.lens ignoreCase s ++ b.lens ignoreCase s
  | .opt a, s => a.lens ignoreCase s ++ [0]
  | .eps, _ => [0]

/-- A regular-expression literal: its pattern and the flags `i` and `g`. -/
structure RegExp where
  source : Pattern
  ignoreCase : Bool
  global : Bool

/-- The match found at the start of `s`, if any: its length. -/
def RegExp.matchAt (re : RegExp) (s : Str) : Option Nat :=
  (re.source.lens re.ignoreCase s).head?

/-- The scan of `String.prototype.match` for a global expression: all matches from
left to right; `skip` counts the characters still covered by the last match. -/
def scanMatches (re : RegExp) : Str → Nat → List Str
  | [], _ =>
    match re.matchAt [] with
    | some _ => [[]]
    | none => []
  | _ :: cs, skip + 1 => scanMatches re cs skip
  | c :: cs, 0 =>
    match re.matchAt (c :: cs) with
    | some 0 => [] :: scanMatches re cs 0
    | some (n + 1) => (c :: cs).take (n + 1) :: scanMatches re cs n
    | none => scanMatches re cs 0

/-- All matches of an expression in a text, from left to right. -/
def allMatches (text : Str) (re : RegExp) : List Str :=
  scanMatches re text 0

/-- The call `text.match(re)`: `none` is `null`. A global expression yields all its
matches, any other the first match. -/
def jsMatch (text : Str) (re : RegExp) : Option (List Str) :=
  if re.global then
    if (allMatches text re).isEmpty then none else some (allMatches text re)
  else
    (allMatches text re).head?.map (fun m => [m])

/-- The call `re.test(s)` for an expression anchored with `^` and without the `g`
flag: is there a match at the start of `s`. -/
def testAnchored (re : RegExp) (s : Str) : Bool :=
  (re.matchAt s).isSome

/-- Prepend a character to the first piece. -/
def consHead (c : Char) : List Str → List Str
  | [] => [[c]]
  | p :: ps => (c :: p) :: ps

/-- The scan of `String.prototype.split` on a non-empty string. The result is the
rest of the current piece followed by the later pieces; `skip` counts the characters
still covered by the separator just matched, `fresh` tells that the current piece is
still empty. -/
def splitScan (re : RegExp) : Str → Nat → Bool → List Str
  | [], _, _ => [[]]
  | _ :: cs, skip + 1, fresh => splitScan re cs skip fresh
  | c :: cs, 0, fresh =>
    match re.matchAt (c :: cs) with
    | some (n + 1) => [] :: splitScan re cs n true
    | some 0 =>
      if fresh then consHead c (splitScan re cs 0 false)
      else [] :: consHead c (splitScan re cs 0 false)
    | none => consHead c (splitScan re cs 0 false)

/-- The call `text.split(re)`. -/
def jsSplit (text : Str) (re : RegExp) : List Str :=
  match text with
  | [] => if (re.matchAt []).isSome then [] else [[]]
  | _ :: _ => splitScan re text 0 true

/-- The call `s.trim()`. -/
def trim (s : Str) : Str :=
  ((s.dropWhile isWhiteSpace).reverse.dropWhile isWhiteSpace).reverse

/-- The array `[...new Set(xs)]`: the distinct elements in order of first occurrence. -/
def setOf {α : Type} [DecidableEq α] (xs : List α) : List α :=
  xs.foldl (fun acc x => if x ∈ acc then acc else acc ++ [x]) []

/-- A literal piece of a pattern, character by character. -/
def str (s : String) : Pattern :=
  s.toList.foldr (fun c r => Pattern.seq (Pattern.lit c) r) Pattern.eps

/-- A sequence of patterns. -/
def cat (ps : List Pattern) : Pattern :=
  ps.foldr Pattern.seq Pattern.eps

/-- A group of literal alternatives `(a|b|c)`, tried in order. -/
def anyOf : List String → Pattern
  | [] => Pattern.cls (fun _ => false)
  | [s] => str s
  | s :: t :: ss => Pattern.alt (str s) (anyOf (t :: ss))

/-- An expression with the flags `gi`. -/
def gi (p : Pattern) : RegExp := { source := p, ignoreCase := true, global := true }

/-- An expression with the flag `i` only. -/
def flagI (p : Pattern) : RegExp := { source := p, ignoreCase := true, global := false }

/-- The separator `/\s+/`. -/
def whiteSpaceRun : RegExp :=
  { source := Pattern.plus isWhiteSpace, ignoreCase := false, global := false }

/-- The separator `/[.!?]+/`. -/
def sentenceEndRun : RegExp :=
  { source := Pattern.plus isSentenceEnd, ignoreCase := false, global := false }

/-- The table `AI_PATTERNS`. -/
def AI_PATTERNS : List RegExp :=
  [ gi (cat [str "in conclusion", Pattern.opt (Pattern.lit ','), Pattern.cls isWhiteSpace]),
    gi (str "it is important to note that"),
    gi (str "it's worth noting that"),
    gi (cat [str "in today's ", anyOf ["world", "society", "age"]]),
    gi (str "at the end of the day"),
    gi (str "when it comes to"),
    gi (cat [str "in this ", anyOf ["article", "essay", "blog"]]),
    gi (str "first and foremost"),
    gi (str "last but not least"),
    gi (cat [str "plays a ", anyOf ["crucial", "vital", "important", "key"], str " role"]),
    gi (str "in order to"),
    gi (str "due to the fact that"),
    gi (str "it goes without saying"),
    gi (str "needless to say"),
    gi (str "as we all know"),
    gi (cat [str "in the ", anyOf ["modern", "digital"], str " ", anyOf ["era", "age"]]),
    gi (str "has become increasingly"),
    gi (cat [str "it is ", anyOf ["widely", "generally"], str " ", anyOf ["known", "accepted"]]),
    gi (cat [str "one of the most ", anyOf ["important", "significant"]]),
    gi (cat [str "there are ", anyOf ["many", "several", "numerous"], str " ",
             anyOf ["ways", "reasons", "factors"]]) ]

/-- The table `FILLER_PATTERNS`. -/
def FILLER_PATTERNS : List RegExp :=
  [ gi (cat [str "very", Pattern.plus isWhiteSpace, Pattern.plus isWordChar]),
    gi (cat [str "really", Pattern.plus isWhiteSpace, Pattern.plus isWordChar]),
    gi (str "basically"),
    gi (str "actually"),
    gi (str "literally"),
    gi (str "obviously"),
    gi (str "clearly"),
    gi (str "simply put"),
    gi (str "to be honest"),
    gi (str "in my opinion") ]

/-- The table `genericOpenings`; every entry is anchored at the start of the text. -/
def genericOpenings : List RegExp :=
  [ flagI (cat [anyOf ["this", "the"], str " ", anyOf ["essay", "article", "paper", "blog"],
                str " ", anyOf ["will", "is going to"]]),
    flagI (cat [str "in this ", anyOf ["essay", "article", "paper", "blog"]]),
    flagI (str "throughout history"),
    flagI (cat [str "since the ", anyOf ["beginning", "dawn"], str " of time"]),
    flagI (str "according to") ]

/-- The digits of `n`, padded with zeros on the left to at least `width` characters. -/
def padDigits (n width : Nat) : String :=
  String.mk (List.replicate (width - (Nat.repr n).length) '0') ++ Nat.repr n

/-- The call `x.toFixed(digits)` for a finite `x` below `10^21` in absolute value:
the nearest decimal with `digits` places, the larger one on a tie. -/
def toFixed (x : ℚ) (digits : Nat) : String :=
  let n : Nat := (Rat.floor (|x| * 10 ^ digits + 1 / 2)).toNat
  let body :=
    if digits = 0 then Nat.repr n
    else Nat.repr (n / 10 ^ digits) ++ "." ++ padDigits (n % 10 ^ digits) digits
  if x < 0 then "-" ++ body else body

/-- The quotient `a / b` of two numbers; `none` stands for the non-finite outcome of
a division by zero. -/
def jsDiv (a b : ℚ) : Option ℚ :=
  if b = 0 then none else some (a / b)

/-- The loop `patterns.forEach(...)` of both detectors: the array `matches` and the
counter `totalMatches`. -/
def collectMatches (text : Str) (patterns : List RegExp) : List Str × Nat :=
  patterns.foldl
    (fun acc pattern =>
      match jsMatch text pattern with
      | some found => (acc.1 ++ found, acc.2 + found.length)
      | none => acc)
    ([], 0)

/-- The constant `wordCount` of both detectors: `text.split(/\s+/).length`. -/
def wordCount (text : Str) : Nat :=
  (jsSplit text whiteSpaceRun).length

/-- The value returned by `detectAIPatterns`. -/
structure AIDetection where
  aiLikelihood : String
  patternsFound : List Str
  matchCount : Nat
  assessment : String
  deriving DecidableEq

/-- The constant `aiLikelihood` of `detectAIPatterns`, before it is rendered: the exact
value of `Math.min((totalMatches / (wordCount / 100)) * 10, 100)`, of which the code
holds the binary64 approximation. -/
def aiLikelihood (totalMatches wordCount : Nat) : Option ℚ :=
  (jsDiv (wordCount : ℚ) 100).bind fun perHundred =>
    (jsDiv (totalMatches : ℚ) perHundred).map fun density =>
      min (density * 10) 100

/-- The part of `detectAIPatterns` after the loop over the patterns. -/
def aiDetectionOf (text : Str) (acc : List Str × Nat) : Option AIDetection :=
  (aiLikelihood acc.2 (wordCount text)).map fun likelihood =>
    { aiLikelihood := toFixed likelihood 1,
      patternsFound := setOf acc.1,
      matchCount := acc.2,
      assessment :=
        if likelihood > 50 then "High likelihood of AI generation"
        else if likelihood > 25 then "Moderate AI indicators detected"
        else "Low AI indicators - likely human-written" }

/-- Function `detectAIPatterns`. -/
def detectAIPatterns (text : Str) : Option AIDetection :=
  aiDetectionOf text (collectMatches text AI_PATTERNS)

/-- The value returned by `detectFillerWords`. -/
structure FillerAnalysis where
  fillerPercentage : String
  fillersFound : List Str
  matchCount : Nat
  assessment : String
  deriving DecidableEq

/-- The constant `fillerPercentage` of `detectFillerWords`, before it is rendered: the
exact value of `(totalMatches / wordCount) * 100`, of which the code holds the binary64
approximation. -/
def fillerPercentage (totalMatches wordCount : Nat) : Option ℚ :=
  (jsDiv (totalMatches : ℚ) (wordCount : ℚ)).map fun share => share * 100

/-- The part of `detectFillerWords` after the loop over the patterns. -/
def fillerAnalysisOf (text : Str) (acc : List Str × Nat) : Option FillerAnalysis :=
  (fillerPercentage acc.2 (wordCount text)).map fun percentage =>
    { fillerPercentage := toFixed percentage 2,
      fillersFound := setOf acc.1,
      matchCount := acc.2,
      assessment :=
        if percentage > 5 then "High filler word usage - consider removing"
        else if percentage > 2 then "Moderate filler words detected"
        else "Good - minimal filler words" }

/-- Function `detectFillerWords`. -/
def detectFillerWords (text : Str) : Option FillerAnalysis :=
  fillerAnalysisOf text (collectMatches text FILLER_PATTERNS)

/-- The value returned by `detectPlagiarismIndicators`. -/
structure PlagiarismIndicators where
  repetitionPercentage : String
  duplicateSentences : Int
  hasGenericOpening : Bool
  plagiarismRisk : String
  suggestions : List String
  deriving DecidableEq

/-- The constant `sentences` of `detectPlagiarismIndicators`. -/
def sentences (text : Str) : List Str :=
  (jsSplit text sentenceEndRun).filter (fun s => decide ((trim s).length > 10))

/-- The constant `uniqueSentences`, as the array of its elements; `toLowerCase` is the
lower-casing of a string by the runtime. -/
def uniqueSentences (toLowerCase : Str → Str) (text : Str) : List Str :=
  setOf ((sentences text).map (fun s => toLowerCase (trim s)))

/-- The constant `repetitionRatio` of `detectPlagiarismIndicators`: the exact value of
the guarded quotient, of which the code holds the binary64 approximation. -/
def repetitionRatio (toLowerCase : Str → Str) (text : Str) : Option ℚ :=
  if (sentences text).length > 0 then
    (jsDiv (((sentences text).length : ℚ) - ((uniqueSentences toLowerCase text).length : ℚ))
      ((sentences text).length : ℚ)).map fun share => share * 100
  else some 0

/-- The constant `hasGenericOpening` of `detectPlagiarismIndicators`. -/
def hasGenericOpening (text : Str) : Bool :=
  genericOpenings.any (fun pattern => testAnchored pattern (trim text))

/-- The array literal of `suggestions` after `.filter(Boolean)`. -/
def suggestionsOf (ratio : ℚ) (genericOpening : Bool) : List String :=
  ([ if ratio > 10 then some "Consider varying your sentence structure" else none,
     if genericOpening then some "Consider a more unique opening line" else none ]
    : List (Option String)).filterMap id

/-- Function `detectPlagiarismIndicators`. -/
def detectPlagiarismIndicators (toLowerCase : Str → Str) (text : Str) :
    Option PlagiarismIndicators :=
  (repetitionRatio toLowerCase text).map fun ratio =>
    { repetitionPercentage := toFixed ratio 2,
      duplicateSentences :=
        ((sentences text).length : Int) - ((uniqueSentences toLowerCase text).length : Int),
      hasGenericOpening := hasGenericOpening text,
      plagiarismRisk :=
        if ratio > 20 then "High" else if ratio > 10 then "Medium" else "Low",
      suggestions := suggestionsOf ratio (hasGenericOpening text) }

/-- The value returned by `analyzeContent`. -/
structure ContentAnalysis where
  aiDetection : AIDetection
  fillerAnalysis : FillerAnalysis
  plagiarismIndicators : PlagiarismIndicators
  deriving DecidableEq

/-- Function `analyzeContent`. -/
def analyzeContent (toLowerCase : Str → Str) (text : Str) : Option ContentAnalysis :=
  (detectAIPatterns text).bind fun ai =>
    (detectFillerWords text).bind fun filler =>
      (detectPlagiarismIndicators toLowerCase text).map fun plagiarism =>
        { aiDetection := ai, fillerAnalysis := filler, plagiarismIndicators := plagiarism }

/-- Function `getWordCount` of `textExtract.js`. -/
def getWordCount (text : Str) : Nat :=
  if text = [] then 0
  else ((jsSplit text whiteSpaceRun).filter (fun word => decide (word.length > 0))).length

/-- Lower-casing of the ASCII letters, a sample `toLowerCase`. -/
def asciiLowerCase (s : Str) : Str := s.map Char.toLower

/-- A regular-expression object of the module: the expression and its mutable
`lastIndex` property. -/
structure RegExpObject where
  re : RegExp
  lastIndex : Nat

/-- The call `text.match(o)` on an expression object, with the object after the call.
For a global expression `lastIndex` is set to 0 before the scan, the scan starts at
`lastIndex`, and the failed search that ends the scan leaves `lastIndex` at 0; any
other expression neither reads nor writes `lastIndex`. -/
def matchObject (text : Str) (o : RegExpObject) : RegExpObject × Option (List Str) :=
  if o.re.global then
    let o0 : RegExpObject := { o with lastIndex := 0 }
    let found := allMatches (text.drop o0.lastIndex) o0.re
    ({ o0 with lastIndex := 0 }, if found.isEmpty then none else some found)
  else (o, jsMatch text o.re)

/-- The loop `patterns.forEach(...)` over expression objects: the objects after the
loop, the array `matches` and the counter `totalMatches`. -/
def collectMatchesIn (text : Str) (patterns : List RegExpObject) :
    List RegExpObject × (List Str × Nat) :=
  patterns.foldl
    (fun st pattern =>
      match matchObject text pattern with
      | (pattern1, some found) => (st.1 ++ [pattern1], (st.2.1 ++ found, st.2.2 + found.length))
      | (pattern1, none) => (st.1 ++ [pattern1], st.2))
    ([], ([], 0))

/-- The module-level state of `plagiarismCheck.js`: the two tables of expression
objects. -/
structure ModuleState where
  aiPatterns : List RegExpObject
  fillerPatterns : List RegExpObject

/-- The module state right after loading. -/
def initialModule : ModuleState :=
  { aiPatterns := AI_PATTERNS.map (fun re => { re := re, lastIndex := 0 }),
    fillerPatterns := FILLER_PATTERNS.map (fun re => { re := re, lastIndex := 0 }) }

/-- Function `analyzeContent` run in a given module state: the state after the call
and the returned value. -/
def analyzeContentIn (toLowerCase : Str → Str) (m : ModuleState) (text : Str) :
    ModuleState × Option ContentAnalysis :=
  let ai := collectMatchesIn text m.aiPatterns
  let filler := collectMatchesIn text m.fillerPatterns
  ({ aiPatterns := ai.1, fillerPatterns := filler.1 },
    (aiDetectionOf text ai.2).bind fun a =>
      (fillerAnalysisOf text filler.2).bind fun f =>
        (detectPlagiarismIndicators toLowerCase text).map fun p =>
          { aiDetection := a, fillerAnalysis := f, plagiarismIndicators := p })

/-- The module state after analysing a list of texts in turn. -/
def runAnalyses (toLowerCase : Str → Str) (m : ModuleState) (texts : List Str) : ModuleState :=
  texts.foldl (fun st t => (analyzeContentIn toLowerCase st t).1) m

/-- A text `m` is matched by an expression: some way of matching consumes all of it. -/
def Matches (re : RegExp) (m : Str) : Prop :=
  m.length ∈ re.source.lens re.ignoreCase m

/-- The sum, over the patterns of a table, of the number of matches of the pattern in
the text. -/
def totalMatchCount (text : Str) (patterns : List RegExp) : Nat :=
  (patterns.map (fun p => (allMatches text p).length)).sum

/-- The repetition ratio as the specification states it: the share of duplicate
sentences in percent, 0 when no sentence is kept. -/
def repetitionValue (toLowerCase : Str → Str) (text : Str) : ℚ :=
  if (sentences text).length = 0 then 0
  else (((sentences text).length : ℚ) - ((uniqueSentences toLowerCase text).length : ℚ))
        / ((sentences text).length : ℚ) * 100

/-- A module state in which every expression object carries a stale `lastIndex`. -/
def staleModule : ModuleState :=
  { aiPatterns := AI_PATTERNS.map (fun re => { re := re, lastIndex := 7 }),
    fillerPatterns := FILLER_PATTERNS.map (fun re => { re := re, lastIndex := 3 }) }

/-- The maximal runs of non-whitespace characters of a text. -/
def nonWhiteSpaceRuns (text : Str) : List Str :=
  (text.splitOnP isWhiteSpace).filter (fun run => decide (run.length > 0))

/-- The scan of `String.prototype.replace` for a global expression and a replacement
without `$` patterns: every match is replaced, the rest is copied; `skip` counts the
characters still covered by the last match. -/
def replaceScan (re : RegExp) (replacement : Str) : Str → Nat → Str
  | [], _ =>
    match re.matchAt [] with
    | some _ => replacement
    | none => []
  | _ :: cs, skip + 1 => replaceScan re replacement cs skip
  | c :: cs, 0 =>
    match re.matchAt (c :: cs) with
    | some 0 => replacement ++ c :: replaceScan re replacement cs 0
    | some (n + 1) => replacement ++ replaceScan re replacement cs n
    | none => c :: replaceScan re replacement cs 0

/-- The call `text.replace(re, replacement)` for a global expression. -/
def jsReplace (text : Str) (re : RegExp) (replacement : Str) : Str :=
  replaceScan re replacement text 0

/-- An expression with the flag `g` only. -/
def flagG (p : Pattern) : RegExp := { source := p, ignoreCase := false, global := true }

/-- The class `[\x00-\x08\x0B\x0C\x0E-\x1F\x7F]`. -/
def isControlChar (c : Char) : Bool :=
  c.val ≤ 0x08 || c.val = 0x0B || c.val = 0x0C || (0x0E ≤ c.val && c.val ≤ 0x1F)
  || c.val = 0x7F

/-- The class of the line feed alone. -/
def isLineFeed (c : Char) : Bool :=
  c = '\n'

/-- Function `cleanText` of `textExtract.js`. -/
def cleanText (text : Str) : Str :=
  if text = [] then []
  else
    let t1 := jsReplace text (flagG (Pattern.plus isWhiteSpace)) [' ']
    let t2 := jsReplace t1 (flagG (Pattern.cls isControlChar)) []
    let t3 := jsReplace t2 (flagG (Pattern.seq (Pattern.lit '\r') (Pattern.lit '\n'))) ['\n']
    let t4 := jsReplace t3 (flagG (Pattern.lit '\r')) ['\n']
    let t5 := jsReplace t4
      (flagG (Pattern.seq (Pattern.lit '\n')
        (Pattern.seq (Pattern.lit '\n') (Pattern.plus isLineFeed)))) ['\n', '\n']
    trim t5

/-- Function `getCharacterCount` of `textExtract.js`. -/
def getCharacterCount (text : Str) : Nat :=
  if text = [] then 0 else text.length

/-- Function `getSentenceCount` of `textExtract.js`. -/
def getSentenceCount (text : Str) : Nat :=
  if text = [] then 0
  else ((jsSplit text sentenceEndRun).filter
    (fun sentence => decide ((trim sentence).length > 0))).length

/-- The separator `/\n\n+/`. -/
def blankLineRun : RegExp :=
  { source := Pattern.seq (Pattern.lit '\n') (Pattern.plus isLineFeed),
    ignoreCase := false, global := false }

/-- Function `getParagraphCount` of `textExtract.js`. -/
def getParagraphCount (text : Str) : Nat :=
  if text = [] then 0
  else ((jsSplit text blankLineRun).filter
    (fun para => decide ((trim para).length > 0))).length

/-- The field `averageWordLength`: a string rendered by `toFixed(2)`, or the number 0. -/
inductive AverageWordLength where
  | rendered (s : String)
  | zero
  deriving DecidableEq

/-- The value returned by `getTextStats`. -/
structure TextStats where
  wordCount : Nat
  characterCount : Nat
  sentenceCount : Nat
  paragraphCount : Nat
  averageWordLength : AverageWordLength
  deriving DecidableEq

/-- Function `getTextStats` of `textExtract.js`. -/
def getTextStats (text : Str) : Option TextStats :=
  let cleanedText := cleanText text
  let average : Option AverageWordLength :=
    if cleanedText.length > 0 then
      (jsDiv ((jsReplace cleanedText (flagG (Pattern.cls isWhiteSpace)) []).length : ℚ)
        (getWordCount cleanedText : ℚ)).map
        fun quotient => AverageWordLength.rendered (toFixed quotient 2)
    else some AverageWordLength.zero
  average.map fun avg =>
    { wordCount := getWordCount cleanedText,
      characterCount := getCharacterCount cleanedText,
      sentenceCount := getSentenceCount cleanedText,
      paragraphCount := getParagraphCount cleanedText,
      averageWordLength := avg }

/-- The upper-cased form of an ASCII text. -/
def asciiUpperCase (s : Str) : Str := s.map Char.toUpper

/-- A sample text: 'In conclusion, ' followed by one hundred words. -/
def conclusionText : Str :=
  "In conclusion,".toList ++ (List.replicate 100 " so".toList).flatten

/-- A sample text of four sentences, the second repeating the first in another case. -/
def repeatedText : Str :=
  "The cat sat on the mat. the CAT sat on the mat.  Dogs bark at the moon! Birds sing at dawn?".toList

/-- A character map `f` changes at most the letter case of `c`: the canonical form
under the `i` flag and the whitespace class are kept. -/
def caseNeutral (f : Char → Char) (c : Char) : Prop :=
  canonicalize true (f c) = canonicalize true c ∧ isWhiteSpace (f c) = isWhiteSpace c

/-- A pattern matches alike before and after a case-neutral map `f` of the text:
literals are compared under the `i` flag and character classes do not tell `f c` from
`c`. -/
def Pattern.caseBlind (ignoreCase : Bool) (f : Char → Char) : Pattern → Prop
  | .lit _ => ignoreCase = true
  | .cls p => ∀ c, caseNeutral f c → p (f c) = p c
  | .plus p => ∀ c, caseNeutral f c → p (f c) = p c
  | .seq a b => a.caseBlind ignoreCase f ∧ b.caseBlind ignoreCase f
  | .alt a b => a.caseBlind ignoreCase f ∧ b.caseBlind ignoreCase f
  | .opt a => a.caseBlind ignoreCase f
  | .eps => True

end Heuristics

namespace Ledger

/-! ## Auxiliary lemmas -/

theorem hasBadge_iff (bs : List Badge) (n : String) :
    hasBadge bs n = true ↔ n ∈ bs.map Badge.name := by
  simp [hasBadge, List.find?_isSome]

theorem hasBadge_false_iff (bs : List Badge) (n : String) :
    hasBadge bs n = false ↔ n ∉ bs.map Badge.name := by
  rw [← hasBadge_iff]; simp

theorem ite_snoc {α : Type} (c : Prop) [Decidable c] (l : List α) (x : α) :
    (if c then l ++ [x] else l) = l ++ (if c then [x] else []) := by
  split <;> simp

theorem fdiv_hundred_eq_floor (a : Int) : Int.fdiv a 100 = ⌊(a : ℚ) / 100⌋ := by
  rw [Int.fdiv_eq_ediv a (by norm_num : (0 : Int) ≤ 100)]
  have := Rat.floor_intCast_div_natCast a 100
  simpa using this.symm

theorem addPoints_points (u : User) (d : Int) (r : String) :
    (addPoints u d r).1.points = u.points + d := by
  simp [addPoints, calculateLevel]

theorem addPoints_level (u : User) (d : Int) (r : String) :
    (addPoints u d r).1.level = Int.fdiv (u.points + d) 100 + 1 := by
  simp [addPoints, calculateLevel, pointsPerLevel]

theorem addPoints_badges (u : User) (d : Int) (r : String) :
    (addPoints u d r).1.badges = u.badges ++ (addPoints u d r).2 := by
  simp [addPoints, calculateLevel]

theorem addPoints_counters (u : User) (d : Int) (r : String) :
    (addPoints u d r).1.totalAssignmentsEvaluated = u.totalAssignmentsEvaluated
    ∧ (addPoints u d r).1.totalBlogsPublished = u.totalBlogsPublished
    ∧ (addPoints u d r).1.averageScore = u.averageScore := by
  simp [addPoints, calculateLevel]

theorem filter_badgeNames (p : String → Bool) :
    badgeNames.filter p =
      (if p "First Evaluation" then ["First Evaluation"] else [])
      ++ ((if p "Dedicated Learner" then ["Dedicated Learner"] else [])
      ++ ((if p "Writing Master" then ["Writing Master"] else [])
      ++ ((if p "Excellence" then ["Excellence"] else [])
      ++ ((if p "First Blog" then ["First Blog"] else [])
      ++ (if p "Prolific Writer" then ["Prolific Writer"] else []))))) := by
  simp only [badgeNames, List.filter_cons, List.filter_nil]
  split_ifs <;> rfl

theorem addPoints_names (u : User) (d : Int) (r : String) :
    (addPoints u d r).2.map Badge.name = dueNames u := by
  rw [dueNames, filter_badgeNames]
  simp only [addPoints, calculateLevel, ruleHolds, ite_snoc, List.map_append, List.nil_append]
  simp [apply_ite (List.map Badge.name), and_assoc]

theorem badgeNames_nodup : badgeNames.Nodup := by decide

theorem mem_dueNames (u : User) (n : String) :
    n ∈ dueNames u ↔ n ∈ badgeNames ∧ ruleHolds u n = true ∧ n ∉ u.badges.map Badge.name := by
  simp [dueNames, List.mem_filter, hasBadge_false_iff]

theorem ruleHolds_congr (u v : User)
    (h1 : v.totalAssignmentsEvaluated = u.totalAssignmentsEvaluated)
    (h2 : v.totalBlogsPublished = u.totalBlogsPublished)
    (h3 : v.averageScore = u.averageScore) (n : String) :
    ruleHolds v n = ruleHolds u n := by
  simp [ruleHolds, h1, h2, h3]

theorem addPoints_names_nodup (u : User) (d : Int) (r : String)
    (h : (u.badges.map Badge.name).Nodup) :
    ((addPoints u d r).1.badges.map Badge.name).Nodup := by
  rw [addPoints_badges, List.map_append, addPoints_names]
  refine List.nodup_append.2 ⟨h, ?_, ?_⟩
  · exact List.Nodup.filter _ badgeNames_nodup
  · intro n hn hf
    exact ((mem_dueNames u n).1 hf).2.2 hn

theorem stepCall_names_nodup (u : User) (c : Call)
    (h : (u.badges.map Badge.name).Nodup) :
    ((stepCall u c).badges.map Badge.name).Nodup :=
  addPoints_names_nodup _ _ _ h

/-- After a call nothing is due any more. -/
theorem dueNames_after (u : User) (d : Int) (r : String) :
    dueNames (addPoints u d r).1 = [] := by
  rw [List.eq_nil_iff_forall_not_mem]
  intro n hn
  obtain ⟨hb, hr, hnot⟩ := (mem_dueNames _ n).1 hn
  obtain ⟨c1, c2, c3⟩ := addPoints_counters u d r
  rw [ruleHolds_congr u _ c1 c2 c3] at hr
  rw [addPoints_badges, List.map_append, addPoints_names] at hnot
  by_cases hu : n ∈ u.badges.map Badge.name
  · exact hnot (List.mem_append_left _ hu)
  · exact hnot (List.mem_append_right _ ((mem_dueNames u n).2 ⟨hb, hr, hu⟩))

theorem addPoints_nil_of_not_due (v : User) (d : Int) (r : String) (h : dueNames v = []) :
    (addPoints v d r).2 = [] := by
  have := addPoints_names v d r
  rw [h] at this
  exact List.map_eq_nil_iff.1 this

theorem dueNames_runAddPoints (v : User) (ds : List (Int × String)) (h : dueNames v = []) :
    dueNames (runAddPoints v ds) = [] := by
  induction ds generalizing v with
  | nil => simpa [runAddPoints] using h
  | cons x xs ih =>
    simp only [runAddPoints, List.foldl_cons]
    exact ih _ (dueNames_after v x.1 x.2)

theorem runCalls_names_nodup (u : User) (cs : List Call)
    (h : (u.badges.map Badge.name).Nodup) :
    ((runCalls u cs).badges.map Badge.name).Nodup := by
  induction cs generalizing u with
  | nil => simpa [runCalls] using h
  | cons c cs ih =>
    simp only [runCalls, List.foldl_cons]
    exact ih _ (stepCall_names_nodup u c h)

/-! ## Points and level -/

/-- C1: `addPoints(delta, reason)` leaves `points` equal to the old points plus
`delta` and `level` equal to `floor(newPoints / 100) + 1`, for every stored level
and every reason string. -/
theorem addPoints_points_and_level (u : User) (delta : Int) (reason : String) :
    (addPoints u delta reason).1.points = u.points + delta
    ∧ (addPoints u delta reason).1.level
        = ⌊(((addPoints u delta reason).1.points : Int) : ℚ) / 100⌋ + 1 := by
  refine ⟨addPoints_points u delta reason, ?_⟩
  rw [addPoints_level, addPoints_points, fdiv_hundred_eq_floor]

/-! ## Badges -/

/-- C2: the names returned by `addPoints` are exactly the names whose rule holds on
the current counters and which the user does not hold yet, for the six rules; they
come in rule order and none appears twice. -/
theorem addPoints_returns_due_badges (u : User) (delta : Int) (reason : String) :
    ("First Evaluation" ∈ (addPoints u delta reason).2.map Badge.name
        ↔ u.totalAssignmentsEvaluated ≥ 1
          ∧ "First Evaluation" ∉ u.badges.map Badge.name)
    ∧ ("Dedicated Learner" ∈ (addPoints u delta reason).2.map Badge.name
        ↔ u.totalAssignmentsEvaluated ≥ 10
          ∧ "Dedicated Learner" ∉ u.badges.map Badge.name)
    ∧ ("Writing Master" ∈ (addPoints u delta reason).2.map Badge.name
        ↔ u.totalAssignmentsEvaluated ≥ 50
          ∧ "Writing Master" ∉ u.badges.map Badge.name)
    ∧ ("Excellence" ∈ (addPoints u delta reason).2.map Badge.name
        ↔ (u.averageScore ≥ 8 ∧ u.totalAssignmentsEvaluated ≥ 5)
          ∧ "Excellence" ∉ u.badges.map Badge.name)
    ∧ ("First Blog" ∈ (addPoints u delta reason).2.map Badge.name
        ↔ u.totalBlogsPublished ≥ 1
          ∧ "First Blog" ∉ u.badges.map Badge.name)
    ∧ ("Prolific Writer" ∈ (addPoints u delta reason).2.map Badge.name
        ↔ u.totalBlogsPublished ≥ 10
          ∧ "Prolific Writer" ∉ u.badges.map Badge.name)
    ∧ (∀ n ∈ (addPoints u delta reason).2.map Badge.name, n ∈ badgeNames)
    ∧ ((addPoints u delta reason).2.map Badge.name).Sublist badgeNames
    ∧ ((addPoints u delta reason).2.map Badge.name).Nodup := by
  rw [addPoints_names]
  refine ⟨?_, ?_, ?_, ?_, ?_, ?_, ?_, ?_, ?_⟩
  · simp [mem_dueNames, ruleHolds, badgeNames]
  · simp [mem_dueNames, ruleHolds, badgeNames]
  · simp [mem_dueNames, ruleHolds, badgeNames]
  · simp [mem_dueNames, ruleHolds, badgeNames]
  · simp [mem_dueNames, ruleHolds, badgeNames]
  · simp [mem_dueNames, ruleHolds, badgeNames]
  · intro n hn
    exact ((mem_dueNames u n).1 hn).1
  · exact List.filter_sublist _
  · exact List.Nodup.filter _ badgeNames_nodup

/-- C3: if no two entries of the badge list share a name, then after any sequence
of `addPoints` calls, with the three counters set to arbitrary values before each
call, still no two entries share a name. -/
theorem badge_names_stay_distinct (u : User) (cs : List Call)
    (h : (u.badges.map Badge.name).Nodup) :
    ((runCalls u cs).badges.map Badge.name).Nodup :=
  runCalls_names_nodup u cs h

/-- Witness for C3: a user holding 'First Evaluation', then two calls with the
counters at ten evaluations and one, then two, blogs. -/
theorem badge_names_stay_distinct_witness :
    (({ freshUser with
        badges := [{ name := "First Evaluation", description := "", icon := "" }] }
        : User).badges.map Badge.name).Nodup
    ∧ ((runCalls
        { freshUser with
          badges := [{ name := "First Evaluation", description := "", icon := "" }] }
        [evaluationCall, blogCall]).badges.map Badge.name).Nodup :=
  ⟨by decide, badge_names_stay_distinct _ _ (by decide)⟩

/-- C4: the badge list after `addPoints` is the list before the call followed by
exactly the returned badges, and no returned badge bears a name already in the list
before the call. -/
theorem addPoints_appends_returned (u : User) (delta : Int) (reason : String) :
    (addPoints u delta reason).1.badges = u.badges ++ (addPoints u delta reason).2
    ∧ ∀ b ∈ (addPoints u delta reason).2, b.name ∉ u.badges.map Badge.name := by
  refine ⟨addPoints_badges u delta reason, ?_⟩
  intro b hb
  have hm : b.name ∈ (addPoints u delta reason).2.map Badge.name :=
    List.mem_map_of_mem _ hb
  rw [addPoints_names] at hm
  exact ((mem_dueNames u b.name).1 hm).2.2

/-- C5: with the counters unchanged between the calls, every `addPoints` call after
the first one returns the empty list; 'Dedicated Learner' is returned by the first
call exactly when the counter has reached 10 and the badge was not held, and by no
later call. -/
theorem addPoints_second_call_returns_nothing (u : User) (d1 d2 : Int) (r1 r2 : String)
    (between : List (Int × String)) :
    (addPoints (addPoints u d1 r1).1 d2 r2).2 = []
    ∧ (addPoints (runAddPoints (addPoints u d1 r1).1 between) d2 r2).2 = []
    ∧ ("Dedicated Learner" ∈ (addPoints u d1 r1).2.map Badge.name
        ↔ u.totalAssignmentsEvaluated ≥ 10
          ∧ "Dedicated Learner" ∉ u.badges.map Badge.name)
    ∧ "Dedicated Learner" ∉
        (addPoints (runAddPoints (addPoints u d1 r1).1 between) d2 r2).2.map Badge.name := by
  have h1 := dueNames_after u d1 r1
  have h2 := addPoints_nil_of_not_due _ d2 r2 (dueNames_runAddPoints _ between h1)
  refine ⟨addPoints_nil_of_not_due _ d2 r2 h1, h2, ?_, ?_⟩
  · rw [addPoints_names]
    simp [mem_dueNames, ruleHolds, badgeNames]
  · rw [h2]; simp

/-- C6: a fresh user whose counters were set to one evaluation with average 8:
`addPoints(18, "eval")` gives points 18, level 1 and returns exactly the badge
'First Evaluation'; 'Excellence' is not returned. -/
theorem fresh_user_first_evaluation :
    (addPoints { freshUser with totalAssignmentsEvaluated := 1, averageScore := 8 }
        18 "eval").1.points = 18
    ∧ (addPoints { freshUser with totalAssignmentsEvaluated := 1, averageScore := 8 }
        18 "eval").1.level = 1
    ∧ (addPoints { freshUser with totalAssignmentsEvaluated := 1, averageScore := 8 }
        18 "eval").2
        = [{ name := "First Evaluation",
             description := "Completed your first assignment evaluation", icon := "🎯" }]
    ∧ "Excellence" ∉ (addPoints
        { freshUser with totalAssignmentsEvaluated := 1, averageScore := 8 }
        18 "eval").2.map Badge.name := by
  decide

/-- C7: `calculateLevel` maps 99 to level 1, 100 and 199 to level 2 and 200 to
level 3; for every non-negative integer `points` the computed level `L` satisfies
`100 * (L - 1) ≤ points < 100 * L`. -/
theorem calculateLevel_boundaries (u : User) (p : ℕ) :
    (calculateLevel { u with points := 99 }).2 = 1
    ∧ (calculateLevel { u with points := 100 }).2 = 2
    ∧ (calculateLevel { u with points := 199 }).2 = 2
    ∧ (calculateLevel { u with points := 200 }).2 = 3
    ∧ (calculateLevel { u with points := (p : Int) }).1.level
        = (calculateLevel { u with points := (p : Int) }).2
    ∧ 100 * ((calculateLevel { u with points := (p : Int) }).2 - 1) ≤ (p : Int)
    ∧ (p : Int) < 100 * (calculateLevel { u with points := (p : Int) }).2 := by
  have hd : Int.fdiv (p : Int) 100 = (p : Int) / 100 :=
    Int.fdiv_eq_ediv (p : Int) (by norm_num)
  refine ⟨rfl, rfl, rfl, rfl, rfl, ?_, ?_⟩
  · simp only [calculateLevel, pointsPerLevel, hd]; omega
  · simp only [calculateLevel, pointsPerLevel, hd]; omega

/-- C8: `addPoints` leaves `totalAssignmentsEvaluated`, `totalBlogsPublished` and
`averageScore` as they were before the call. -/
theorem addPoints_keeps_counters (u : User) (delta : Int) (reason : String) :
    (addPoints u delta reason).1.totalAssignmentsEvaluated = u.totalAssignmentsEvaluated
    ∧ (addPoints u delta reason).1.totalBlogsPublished = u.totalBlogsPublished
    ∧ (addPoints u delta reason).1.averageScore = u.averageScore :=
  addPoints_counters u delta reason

/-! ## Monotonicity -/

theorem stepCall_points (u : User) (c : Call) :
    (stepCall u c).points = u.points + c.delta := by
  simp [stepCall, addPoints_points]

theorem stepCall_level (u : User) (c : Call) :
    (stepCall u c).level = Int.fdiv (u.points + c.delta) 100 + 1 := by
  simp [stepCall, addPoints_level]

theorem fdiv_hundred_mono (a b : Int) (h : a ≤ b) : Int.fdiv a 100 ≤ Int.fdiv b 100 := by
  rw [Int.fdiv_eq_ediv a (by norm_num : (0 : Int) ≤ 100),
    Int.fdiv_eq_ediv b (by norm_num : (0 : Int) ≤ 100)]
  omega

theorem fdiv_hundred_nonneg (a : Int) (h : 0 ≤ a) : 0 ≤ Int.fdiv a 100 := by
  rw [Int.fdiv_eq_ediv a (by norm_num : (0 : Int) ≤ 100)]
  omega

theorem runCalls_monotone (v : User) (cs : List Call)
    (hp : 0 ≤ v.points) (hl : v.level = Int.fdiv v.points 100 + 1)
    (hcs : ∀ c ∈ cs, 0 ≤ c.delta) :
    0 ≤ (runCalls v cs).points
    ∧ (runCalls v cs).level = Int.fdiv (runCalls v cs).points 100 + 1
    ∧ v.points ≤ (runCalls v cs).points
    ∧ v.level ≤ (runCalls v cs).level := by
  induction cs generalizing v with
  | nil => simp [runCalls, hp, hl]
  | cons c cs ih =>
    have hc : 0 ≤ c.delta := hcs c (List.mem_cons_self _ _)
    have hrest : ∀ x ∈ cs, 0 ≤ x.delta := fun x hx => hcs x (List.mem_cons_of_mem _ hx)
    have hp1 : 0 ≤ (stepCall v c).points := by rw [stepCall_points]; omega
    have hl1 : (stepCall v c).level = Int.fdiv (stepCall v c).points 100 + 1 := by
      rw [stepCall_level, stepCall_points]
    obtain ⟨i1, i2, i3, i4⟩ := ih (stepCall v c) hp1 hl1 hrest
    have e : runCalls v (c :: cs) = runCalls (stepCall v c) cs := by
      simp [runCalls]
    rw [e]
    refine ⟨i1, i2, ?_, ?_⟩
    · rw [stepCall_points] at i3; omega
    · have hm : v.level ≤ (stepCall v c).level := by
        rw [hl, stepCall_level]
        have := fdiv_hundred_mono v.points (v.points + c.delta) (by omega)
        omega
      omega

/-- C9: from a state with non-negative points and `level = floor(points/100) + 1`,
an `addPoints` call with a non-negative delta leaves points non-negative and not
smaller, and level at least 1 and not smaller; along any sequence of such calls
points and level never decrease. -/
theorem points_and_level_never_decrease (u : User) (delta : Int) (reason : String)
    (cs1 cs2 : List Call)
    (hp : 0 ≤ u.points) (hl : u.level = ⌊((u.points : Int) : ℚ) / 100⌋ + 1)
    (hd : 0 ≤ delta) (hcs : ∀ c ∈ cs1 ++ cs2, 0 ≤ c.delta) :
    0 ≤ (addPoints u delta reason).1.points
    ∧ u.points ≤ (addPoints u delta reason).1.points
    ∧ 1 ≤ (addPoints u delta reason).1.level
    ∧ u.level ≤ (addPoints u delta reason).1.level
    ∧ 0 ≤ (runCalls u cs1).points
    ∧ 1 ≤ (runCalls u cs1).level
    ∧ (runCalls u cs1).points ≤ (runCalls u (cs1 ++ cs2)).points
    ∧ (runCalls u cs1).level ≤ (runCalls u (cs1 ++ cs2)).level := by
  rw [← fdiv_hundred_eq_floor] at hl
  have h1 : ∀ c ∈ cs1, 0 ≤ c.delta := fun c hc => hcs c (List.mem_append_left _ hc)
  have h2 : ∀ c ∈ cs2, 0 ≤ c.delta := fun c hc => hcs c (List.mem_append_right _ hc)
  obtain ⟨a1, a2, _, _⟩ := runCalls_monotone u cs1 hp hl h1
  obtain ⟨_, _, b3, b4⟩ := runCalls_monotone (runCalls u cs1) cs2 a1 a2 h2
  have e : runCalls u (cs1 ++ cs2) = runCalls (runCalls u cs1) cs2 := by
    simp [runCalls, List.foldl_append]
  have n1 := fdiv_hundred_nonneg (u.points + delta) (by omega)
  have n2 := fdiv_hundred_mono u.points (u.points + delta) (by omega)
  have n3 := fdiv_hundred_nonneg (runCalls u cs1).points a1
  rw [e, addPoints_points, addPoints_level]
  refine ⟨by omega, by omega, by omega, by omega, a1, by omega, b3, b4⟩

/-- Witness for C9: 250 points at level 3, a call with delta 60, then a sequence
of two calls split after the first. -/
theorem points_and_level_never_decrease_witness :
    (250 : Int) ≤ (addPoints { freshUser with points := 250, level := 3 } 60 "eval").1.points
    ∧ (3 : Int) ≤ (addPoints { freshUser with points := 250, level := 3 } 60 "eval").1.level
    ∧ (runCalls { freshUser with points := 250, level := 3 } [evaluationCall]).level
        ≤ (runCalls { freshUser with points := 250, level := 3 }
            ([evaluationCall] ++ [blogCall])).level :=
  have h := points_and_level_never_decrease
    { freshUser with points := 250, level := 3 } 60 "eval" [evaluationCall] [blogCall]
    (by decide) (by norm_num [freshUser, Int.floor_eq_iff]) (by decide)
    (by simp [evaluationCall, blogCall])
  ⟨h.2.1, h.2.2.2.1, h.2.2.2.2.2.2.2⟩

/-! ## The running average -/

theorem updateUserStats_count (u : User) (s : ℚ) (r : String) :
    (updateUserStats u s r).1.totalAssignmentsEvaluated = u.totalAssignmentsEvaluated + 1 := by
  simp [updateUserStats, (addPoints_counters _ _ _).1]

theorem updateUserStats_average (u : User) (s : ℚ) (r : String) :
    (updateUserStats u s r).1.averageScore
      = (u.averageScore * ((u.totalAssignmentsEvaluated + 1 - 1 : Int) : ℚ) + s)
          / ((u.totalAssignmentsEvaluated + 1 : Int) : ℚ) := by
  simp [updateUserStats, (addPoints_counters _ _ _).2.2]

theorem runEvaluations_sum (v : User) (evs : List (ℚ × String)) (k : ℕ) (S : ℚ)
    (hk : v.totalAssignmentsEvaluated = (k : Int)) (hS : v.averageScore * (k : ℚ) = S) :
    (runEvaluations v evs).totalAssignmentsEvaluated = ((k + evs.length : ℕ) : Int)
    ∧ (runEvaluations v evs).averageScore * ((k + evs.length : ℕ) : ℚ)
        = S + (evs.map Prod.fst).sum := by
  induction evs generalizing v k S with
  | nil => simp [runEvaluations, hk, hS]
  | cons e es ih =>
    have e1 : runEvaluations v (e :: es)
        = runEvaluations (updateUserStats v e.1 e.2).1 es := by
      simp [runEvaluations]
    have hk1 : (updateUserStats v e.1 e.2).1.totalAssignmentsEvaluated = ((k + 1 : ℕ) : Int) := by
      rw [updateUserStats_count, hk]; push_cast; ring
    have hS1 : (updateUserStats v e.1 e.2).1.averageScore * ((k + 1 : ℕ) : ℚ) = S + e.1 := by
      rw [updateUserStats_average, hk]
      have hne : ((k : ℚ) + 1) ≠ 0 := by positivity
      push_cast
      rw [add_sub_cancel_right, div_mul_cancel₀ _ hne, hS]
    obtain ⟨i1, i2⟩ := ih _ (k + 1) (S + e.1) hk1 hS1
    rw [e1]
    have hlen : k + (e :: es).length = k + 1 + es.length := by
      simp [List.length_cons]; omega
    rw [hlen]
    refine ⟨i1, ?_⟩
    rw [i2]; simp [List.sum_cons]; ring

/-- C10: starting from `totalAssignmentsEvaluated = 0` and `averageScore = 0`, after
the evaluation step has run for the scores `s1..sn` in turn (`n ≥ 1`), the counter is
`n` and, in exact rational arithmetic, `averageScore = (s1 + ... + sn) / n`. -/
theorem averageScore_is_running_mean (u : User) (evs : List (ℚ × String))
    (h0 : u.totalAssignmentsEvaluated = 0) (ha : u.averageScore = 0) (hn : 1 ≤ evs.length) :
    (runEvaluations u evs).totalAssignmentsEvaluated = (evs.length : Int)
    ∧ (runEvaluations u evs).averageScore = (evs.map Prod.fst).sum / (evs.length : ℚ) := by
  obtain ⟨i1, i2⟩ := runEvaluations_sum u evs 0 0 (by simpa using h0) (by simp [ha])
  have hne : (evs.length : ℚ) ≠ 0 := by
    have : (0 : ℚ) < (evs.length : ℚ) := by exact_mod_cast hn
    exact ne_of_gt this
  refine ⟨by simpa using i1, ?_⟩
  rw [eq_div_iff hne]
  simpa using i2

/-- Witness for C10: a fresh user evaluated with scores 8, 9 and 5/2. -/
theorem averageScore_is_running_mean_witness :
    (runEvaluations freshUser
        [(8, "Assignment evaluation"), (9, "Text evaluation"),
         (5 / 2, "Text evaluation")]).totalAssignmentsEvaluated = 3
    ∧ (runEvaluations freshUser
        [(8, "Assignment evaluation"), (9, "Text evaluation"),
         (5 / 2, "Text evaluation")]).averageScore = 13 / 2 :=
  have h := averageScore_is_running_mean freshUser
    [(8, "Assignment evaluation"), (9, "Text evaluation"), (5 / 2, "Text evaluation")]
    rfl rfl (by decide)
  ⟨by simpa using h.1, by rw [h.2]; norm_num⟩

/-! ## Point awards of the callers -/

theorem updateUserStats_points (u : User) (s : ℚ) (r : String) :
    (updateUserStats u s r).1.points = u.points + (10 + Rat.floor s) := by
  simp [updateUserStats, addPoints_points]

/-- C11: one assignment-evaluation event with a score `s` in `[0, 10]` increases
`totalAssignmentsEvaluated` by 1 and `points` by `10 + floor(s)`, an integer between
10 and 20; one blog-publication event increases `totalBlogsPublished` by 1 and
`points` by 20. -/
theorem evaluation_and_publication_awards (u : User) (s : ℚ) (reason : String)
    (h0 : 0 ≤ s) (h10 : s ≤ 10) :
    (updateUserStats u s reason).1.totalAssignmentsEvaluated
        = u.totalAssignmentsEvaluated + 1
    ∧ (updateUserStats u s reason).1.points = u.points + (10 + ⌊s⌋)
    ∧ 10 ≤ 10 + ⌊s⌋
    ∧ 10 + ⌊s⌋ ≤ 20
    ∧ (updateUserStats u s reason).1.totalBlogsPublished = u.totalBlogsPublished
    ∧ (publishOnCreate "published" u).totalBlogsPublished = u.totalBlogsPublished + 1
    ∧ (publishOnCreate "published" u).points = u.points + 20
    ∧ (publishOnCreate "published" u).totalAssignmentsEvaluated
        = u.totalAssignmentsEvaluated := by
  have f0 : 0 ≤ ⌊s⌋ := Int.floor_nonneg.2 h0
  have f10 : ⌊s⌋ ≤ 10 := by
    have : ⌊s⌋ ≤ ⌊(10 : ℚ)⌋ := Int.floor_mono h10
    simpa using this
  refine ⟨updateUserStats_count u s reason, updateUserStats_points u s reason, by omega,
    by omega, ?_, ?_, ?_, ?_⟩
  · simp [updateUserStats, (addPoints_counters _ _ _).2.1]
  · simp [publishOnCreate, (addPoints_counters _ _ _).2.1]
  · simp [publishOnCreate, addPoints_points]
  · simp [publishOnCreate, (addPoints_counters _ _ _).1]

/-- Witness for C11: a fresh user, score 17/2. -/
theorem evaluation_and_publication_awards_witness :
    (updateUserStats freshUser (17 / 2) "Assignment evaluation").1.totalAssignmentsEvaluated
        = 0 + 1
    ∧ (updateUserStats freshUser (17 / 2) "Assignment evaluation").1.points
        = 0 + (10 + ⌊(17 / 2 : ℚ)⌋)
    ∧ (publishOnCreate "published" freshUser).points = 0 + 20 :=
  have h := evaluation_and_publication_awards freshUser (17 / 2) "Assignment evaluation"
    (by norm_num) (by norm_num)
  ⟨h.1, h.2.1, h.2.2.2.2.2.2.1⟩

/-! ## Negative and zero deltas -/

theorem addPoints_eq_of_not_due (u : User) (r : String)
    (hl : u.level = Int.fdiv u.points 100 + 1) (hd : dueNames u = []) :
    addPoints u 0 r = (u, []) := by
  have h2 : (addPoints u 0 r).2 = [] := addPoints_nil_of_not_due u 0 r hd
  have hb := addPoints_badges u 0 r
  have hp := addPoints_points u 0 r
  have hlev := addPoints_level u 0 r
  obtain ⟨c1, c2, c3⟩ := addPoints_counters u 0 r
  rw [h2, List.append_nil] at hb
  rw [add_zero] at hp hlev
  rw [← hl] at hlev
  have hu : (addPoints u 0 r).1 = u := by
    cases hv : (addPoints u 0 r).1 with
    | mk p l b t tb a =>
      rw [hv] at hb hp hlev c1 c2 c3
      cases u with
      | mk p0 l0 b0 t0 tb0 a0 =>
        simp only at hb hp hlev c1 c2 c3
        subst hb hp hlev c1 c2 c3
        rfl
  exact Prod.ext hu h2

/-- C23: `addPoints` applies a negative delta like any other: points become
`points + delta`, and from points 100 at level 2 the delta -1 gives points 99 at
level 1, both smaller than before. -/
theorem addPoints_accepts_negative_delta :
    (∀ (u : User) (delta : Int) (reason : String),
        (addPoints u delta reason).1.points = u.points + delta)
    ∧ (addPoints { freshUser with points := 100, level := 2 } (-1) "adjust").1.points = 99
    ∧ (addPoints { freshUser with points := 100, level := 2 } (-1) "adjust").1.level = 1
    ∧ ∃ (u : User) (delta : Int) (reason : String),
        delta < 0
        ∧ (addPoints u delta reason).1.points < u.points
        ∧ (addPoints u delta reason).1.level < u.level := by
  refine ⟨addPoints_points, by decide, by decide,
    { freshUser with points := 100, level := 2 }, -1, "adjust", by decide, by decide,
    by decide⟩

/-- C24: `addPoints` with delta 0 leaves points as they are and still recomputes the
level and evaluates the badge rules; when the stored level already is
`floor(points / 100) + 1` and every badge whose rule holds is already held, the call
changes nothing and returns the empty list. -/
theorem addPoints_zero_delta (u : User) (reason : String)
    (hl : u.level = ⌊((u.points : Int) : ℚ) / 100⌋ + 1)
    (hb : ∀ n ∈ badgeNames, ruleHolds u n = true → n ∈ u.badges.map Badge.name) :
    (∀ (v : User) (r : String),
        (addPoints v 0 r).1.points = v.points
        ∧ (addPoints v 0 r).1.level = ⌊((v.points : Int) : ℚ) / 100⌋ + 1
        ∧ (addPoints v 0 r).2.map Badge.name
            = badgeNames.filter (fun n => ruleHolds v n && !hasBadge v.badges n))
    ∧ addPoints u 0 reason = (u, [])
    ∧ (addPoints u 0 reason).1.points = u.points
    ∧ (addPoints u 0 reason).1.level = u.level
    ∧ (addPoints u 0 reason).1.badges = u.badges
    ∧ (addPoints u 0 reason).2 = [] := by
  have hd : dueNames u = [] := by
    rw [List.eq_nil_iff_forall_not_mem]
    intro n hn
    obtain ⟨h1, h2, h3⟩ := (mem_dueNames u n).1 hn
    exact h3 (hb n h1 h2)
  rw [← fdiv_hundred_eq_floor] at hl
  have he := addPoints_eq_of_not_due u reason hl hd
  refine ⟨?_, he, ?_, ?_, ?_, ?_⟩
  · intro v r
    refine ⟨by simpa using addPoints_points v 0 r, ?_, addPoints_names v 0 r⟩
    rw [addPoints_level, add_zero, fdiv_hundred_eq_floor]
  · rw [he]
  · rw [he]
  · rw [he]
  · rw [he]

/-- Witness for C24: a user with 250 points at level 3, one evaluation, holding
'First Evaluation'. -/
theorem addPoints_zero_delta_witness :
    addPoints
        { points := 250, level := 3,
          badges := [{ name := "First Evaluation", description := "", icon := "" }],
          totalAssignmentsEvaluated := 1, totalBlogsPublished := 0, averageScore := 9 }
        0 "check"
      = ({ points := 250, level := 3,
           badges := [{ name := "First Evaluation", description := "", icon := "" }],
           totalAssignmentsEvaluated := 1, totalBlogsPublished := 0, averageScore := 9 },
         []) :=
  (addPoints_zero_delta
    { points := 250, level := 3,
      badges := [{ name := "First Evaluation", description := "", icon := "" }],
      totalAssignmentsEvaluated := 1, totalBlogsPublished := 0, averageScore := 9 }
    "check" (by norm_num [Int.floor_eq_iff]) (by decide)).2.1

/-! ## The blog update -/

/-- C27: the blog update touches the ledger of the author only on a transition into
'published': when the status before was not 'published' and the requested status is
'published', `totalBlogsPublished` grows by 1 and `points` by 20; in every other case,
in particular for a blog that already is published, the whole user record is left as
it was. -/
theorem updateBlog_ledger (blog : Blog) (status : Option String) (u : User) :
    ((updateBlog blog status u).2.totalBlogsPublished ≠ u.totalBlogsPublished
        ↔ blog.status ≠ "published" ∧ status = some "published")
    ∧ ((updateBlog blog status u).2.points ≠ u.points
        ↔ blog.status ≠ "published" ∧ status = some "published")
    ∧ (blog.status ≠ "published" ∧ status = some "published" →
        (updateBlog blog status u).2.totalBlogsPublished = u.totalBlogsPublished + 1
        ∧ (updateBlog blog status u).2.points = u.points + 20)
    ∧ (¬ (blog.status ≠ "published" ∧ status = some "published") →
        (updateBlog blog status u).2 = u)
    ∧ (blog.status = "published" →
        (updateBlog blog status u).2.totalBlogsPublished = u.totalBlogsPublished
        ∧ (updateBlog blog status u).2.points = u.points
        ∧ (updateBlog blog status u).2.level = u.level
        ∧ (updateBlog blog status u).2.badges = u.badges) := by
  by_cases h : blog.status ≠ "published" ∧ status = some "published"
  · have hw : (blog.status != "published") = true := by simpa using h.1
    have e : (updateBlog blog status u).2
        = (addPoints { u with totalBlogsPublished := u.totalBlogsPublished + 1 } 20
            "Blog published").1 := by
      simp [updateBlog, hw, h.2]
    have e1 : (updateBlog blog status u).2.totalBlogsPublished
        = u.totalBlogsPublished + 1 := by
      rw [e, (addPoints_counters _ _ _).2.1]
    have e2 : (updateBlog blog status u).2.points = u.points + 20 := by
      rw [e, addPoints_points]
    refine ⟨⟨fun _ => h, fun _ => by rw [e1]; omega⟩, ⟨fun _ => h, fun _ => by rw [e2]; omega⟩,
      fun _ => ⟨e1, e2⟩, fun hn => absurd h hn, fun hp => absurd hp h.1⟩
  · have e : (updateBlog blog status u).2 = u := by
      unfold updateBlog
      by_cases hw : (blog.status != "published") = true
      · have hs : ¬ status = some "published" := fun hs => h ⟨by simpa using hw, hs⟩
        simp [hw, hs]
      · simp [hw]
    refine ⟨⟨fun hne => absurd (by rw [e]) hne, fun hc => absurd hc h⟩,
      ⟨fun hne => absurd (by rw [e]) hne, fun hc => absurd hc h⟩,
      fun hc => absurd hc h, fun _ => e, fun _ => by rw [e]; exact ⟨rfl, rfl, rfl, rfl⟩⟩

/-- Witness for C27: a draft is published, then published again. -/
theorem updateBlog_ledger_witness :
    (updateBlog { status := "draft" } (some "published") freshUser).2.totalBlogsPublished
        = 0 + 1
    ∧ (updateBlog { status := "draft" } (some "published") freshUser).2.points = 0 + 20
    ∧ (updateBlog { status := "published" } (some "published") freshUser).2 = freshUser :=
  ⟨((updateBlog_ledger { status := "draft" } (some "published") freshUser).2.2.1
      ⟨by decide, rfl⟩).1,
   ((updateBlog_ledger { status := "draft" } (some "published") freshUser).2.2.1
      ⟨by decide, rfl⟩).2,
   (updateBlog_ledger { status := "published" } (some "published") freshUser).2.2.2.1
      (by decide)⟩

end Ledger

namespace Heuristics

/-! ## Splitting on runs of a character class -/

theorem plusLens_head (p : Char → Bool) (c : Char) (cs : Str) :
    (plusLens p (c :: cs)).head?
      = if p c then some ((cs.takeWhile p).length + 1) else none := by
  induction cs generalizing c with
  | nil => by_cases h : p c <;> simp [plusLens, h]
  | cons d ds ih =>
    by_cases h : p c
    · have := ih d
      by_cases hd : p d
      · simp only [hd, if_true] at this
        simp only [plusLens, h, hd, if_true, List.takeWhile_cons] at this ⊢
        cases hl : List.map (fun x => x + 1) (plusLens p ds) ++ [1] with
        | nil => simp at hl
        | cons a as =>
          rw [hl] at this
          simp at this
          simp [this]
      · simp [plusLens, h, hd]
    · simp [plusLens, h]

theorem plus_matchAt (p : Char → Bool) (i g : Bool) (c : Char) (cs : Str) :
    RegExp.matchAt { source := Pattern.plus p, ignoreCase := i, global := g } (c :: cs)
      = if p c then some ((cs.takeWhile p).length + 1) else none := by
  simp only [RegExp.matchAt, Pattern.lens]
  exact plusLens_head p c cs

theorem plus_matchAt_nil (p : Char → Bool) (i g : Bool) :
    RegExp.matchAt { source := Pattern.plus p, ignoreCase := i, global := g } [] = none := by
  simp [RegExp.matchAt, Pattern.lens, plusLens]

theorem splitScan_skip (re : RegExp) (s : Str) (k : Nat) (fresh : Bool) :
    splitScan re s k fresh = splitScan re (s.drop k) 0 fresh := by
  induction s generalizing k with
  | nil => cases k <;> simp [splitScan]
  | cons c cs ih =>
    cases k with
    | zero => simp
    | succ k => simp [splitScan, ih k]

theorem drop_takeWhile_length (p : Char → Bool) (s : Str) :
    s.drop (s.takeWhile p).length = s.dropWhile p := by
  induction s with
  | nil => simp
  | cons c cs ih => by_cases h : p c <;> simp [h, ih]

theorem splitScan_plus_sep (p : Char → Bool) (i g : Bool) (c : Char) (cs : Str)
    (fresh : Bool) (h : p c = true) :
    splitScan { source := Pattern.plus p, ignoreCase := i, global := g } (c :: cs) 0 fresh
      = [] :: splitScan { source := Pattern.plus p, ignoreCase := i, global := g }
          (cs.dropWhile p) 0 true := by
  rw [splitScan, plus_matchAt, if_pos h]
  simp only
  rw [splitScan_skip, drop_takeWhile_length]

theorem splitScan_plus_keep (p : Char → Bool) (i g : Bool) (c : Char) (cs : Str)
    (fresh : Bool) (h : p c = false) :
    splitScan { source := Pattern.plus p, ignoreCase := i, global := g } (c :: cs) 0 fresh
      = consHead c
          (splitScan { source := Pattern.plus p, ignoreCase := i, global := g } cs 0 false) := by
  rw [splitScan, plus_matchAt]
  simp [h]

theorem splitScan_ne_nil (re : RegExp) (s : Str) (k : Nat) (fresh : Bool) :
    splitScan re s k fresh ≠ [] := by
  induction s generalizing k fresh with
  | nil => simp [splitScan]
  | cons c cs ih =>
    cases k with
    | succ k => simpa [splitScan] using ih k fresh
    | zero =>
      rw [splitScan]
      split
      · simp
      · split
        · cases h : splitScan re cs 0 false <;> simp [consHead]
        · simp
      · cases h : splitScan re cs 0 false <;> simp [consHead]

theorem jsSplit_plus_eq (p : Char → Bool) (i g : Bool) (text : Str) :
    jsSplit text { source := Pattern.plus p, ignoreCase := i, global := g }
      = splitScan { source := Pattern.plus p, ignoreCase := i, global := g } text 0 true := by
  cases text with
  | nil => simp [jsSplit, plus_matchAt_nil, splitScan]
  | cons c cs => simp [jsSplit]

theorem wordCount_pos (text : Str) : 1 ≤ wordCount text := by
  unfold wordCount whiteSpaceRun
  rw [jsSplit_plus_eq]
  exact List.length_pos.2 (splitScan_ne_nil _ _ _ _)

theorem splitOnP_ne_nil (p : Char → Bool) (s : Str) : s.splitOnP p ≠ [] := by
  induction s with
  | nil => simp
  | cons c cs ih =>
    rw [List.splitOnP_cons]
    split
    · simp
    · cases h : List.splitOnP p cs with
      | nil => exact absurd h ih
      | cons a as => simp [List.modifyHead]

theorem splitOnP_dropWhile_filter (p : Char → Bool) (q : Str → Bool) (hq : q [] = false)
    (s : Str) :
    ((s.dropWhile p).splitOnP p).filter q = (s.splitOnP p).filter q := by
  induction s with
  | nil => simp
  | cons c cs ih =>
    by_cases h : p c
    · rw [List.dropWhile_cons_of_pos h, List.splitOnP_cons, if_pos h, List.filter_cons, hq]
      simpa using ih
    · rw [List.dropWhile_cons_of_neg h]

/-- The pieces of a split on a class repetition, compared with `List.splitOnP`: same
first piece, and the same pieces once a filter removes the empty ones. -/
theorem splitScan_plus_splitOnP (p : Char → Bool) (i g : Bool) (q : Str → Bool)
    (hq : q [] = false) (n : Nat) :
    ∀ (s : Str) (fresh : Bool), s.length ≤ n →
      (splitScan { source := Pattern.plus p, ignoreCase := i, global := g } s 0 fresh).head?
          = (s.splitOnP p).head?
      ∧ (splitScan { source := Pattern.plus p, ignoreCase := i, global := g } s 0 fresh).filter q
          = (s.splitOnP p).filter q := by
  induction n with
  | zero =>
    intro s fresh hs
    have : s = [] := List.length_eq_zero.1 (Nat.le_zero.1 hs)
    subst this
    simp [splitScan]
  | succ n ih =>
    intro s fresh hs
    cases s with
    | nil => simp [splitScan]
    | cons c cs =>
      have hcs : cs.length ≤ n := by simpa using hs
      by_cases h : p c
      · rw [splitScan_plus_sep p i g c cs fresh h, List.splitOnP_cons, if_pos h]
        refine ⟨rfl, ?_⟩
        have hd : (cs.dropWhile p).length ≤ n :=
          le_trans (List.Sublist.length_le (List.dropWhile_sublist p)) hcs
        rw [List.filter_cons, List.filter_cons, hq, (ih _ true hd).2,
          splitOnP_dropWhile_filter p q hq cs]
      · have h2 : p c = false := by simpa using h
        rw [splitScan_plus_keep p i g c cs fresh h2, List.splitOnP_cons, if_neg h]
        obtain ⟨i1, i2⟩ := ih cs false hcs
        cases hL : splitScan { source := Pattern.plus p, ignoreCase := i, global := g }
            cs 0 false with
        | nil => exact absurd hL (splitScan_ne_nil _ _ _ _)
        | cons l0 lt =>
          cases hM : List.splitOnP p cs with
          | nil => exact absurd hM (splitOnP_ne_nil p cs)
          | cons m0 mt =>
            rw [hL, hM] at i1 i2
            have e0 : l0 = m0 := by simpa using i1
            subst e0
            have et : lt.filter q = mt.filter q := by
              by_cases hq0 : q l0 = true
              · simpa [List.filter_cons, hq0] using i2
              · simpa [List.filter_cons, hq0] using i2
            simp [consHead, List.modifyHead, List.filter_cons, et]

theorem jsSplit_plus_filter (p : Char → Bool) (i g : Bool) (q : Str → Bool)
    (hq : q [] = false) (text : Str) :
    (jsSplit text { source := Pattern.plus p, ignoreCase := i, global := g }).filter q
      = (text.splitOnP p).filter q := by
  rw [jsSplit_plus_eq]
  exact (splitScan_plus_splitOnP p i g q hq text.length text true (le_refl _)).2

theorem getLast?_dropWhile (p : Char → Bool) (s : Str) (h : s.dropWhile p ≠ []) :
    (s.dropWhile p).getLast? = s.getLast? := by
  conv_rhs => rw [← List.takeWhile_append_dropWhile p s]
  rw [List.getLast?_append_of_ne_nil _ h]

theorem getLast?_any_of_dropWhile_nil (p : Char → Bool) (c : Char) (cs : Str)
    (hc : p c = true) (h : cs.dropWhile p = []) :
    (c :: cs).getLast?.any p = true := by
  have hall : ∀ x ∈ c :: cs, p x = true := by
    intro x hx
    rcases List.mem_cons.1 hx with rfl | hx
    · exact hc
    · exact (List.dropWhile_eq_nil_iff.1 h) x hx
  have hne : (c :: cs) ≠ [] := by simp
  rw [List.getLast?_eq_getLast _ hne]
  simpa using hall _ (List.getLast_mem hne)

/-- The empty pieces of a split on a class repetition: one at the front when the text
is empty or starts with the class, one at the back when it ends with the class. -/
theorem splitScan_plus_count_nil (p : Char → Bool) (i g : Bool) (n : Nat) :
    ∀ (s : Str) (fresh : Bool), s.length ≤ n →
      ((splitScan { source := Pattern.plus p, ignoreCase := i, global := g } s 0 fresh).head?
          = some [] ↔ s.head?.all p = true)
      ∧ (splitScan { source := Pattern.plus p, ignoreCase := i, global := g } s 0 fresh).count []
          = (if s.head?.all p then 1 else 0) + (if s.getLast?.any p then 1 else 0) := by
  induction n with
  | zero =>
    intro s fresh hs
    have : s = [] := List.length_eq_zero.1 (Nat.le_zero.1 hs)
    subst this
    simp [splitScan]
  | succ n ih =>
    intro s fresh hs
    cases s with
    | nil => simp [splitScan]
    | cons c cs =>
      have hcs : cs.length ≤ n := by simpa using hs
      by_cases h : p c
      · rw [splitScan_plus_sep p i g c cs fresh h]
        have hd : (cs.dropWhile p).length ≤ n :=
          le_trans (List.Sublist.length_le (List.dropWhile_sublist p)) hcs
        obtain ⟨_, i2⟩ := ih (cs.dropWhile p) true hd
        refine ⟨by simp [h], ?_⟩
        rw [List.count_cons_self, i2]
        by_cases hnil : cs.dropWhile p = []
        · have hl := getLast?_any_of_dropWhile_nil p c cs h hnil
          simp [hnil, h, hl]
        · have hl : (c :: cs).getLast? = (cs.dropWhile p).getLast? := by
            have hcsne : cs ≠ [] := by
              intro e; apply hnil; simp [e]
            rw [getLast?_dropWhile p cs hnil]
            cases cs with
            | nil => exact absurd rfl hcsne
            | cons d ds => simp [List.getLast?_cons_cons]
          have hh : (cs.dropWhile p).head?.all p = false := by
            cases hdw : cs.dropWhile p with
            | nil => exact absurd hdw hnil
            | cons d ds =>
              have := List.head_dropWhile_not p cs (by simp [hdw])
              simp only [hdw, List.head_cons] at this
              simpa using this
          rw [hl, hh]
          simp [h]
          omega
      · have h2 : p c = false := by simpa using h
        rw [splitScan_plus_keep p i g c cs fresh h2]
        obtain ⟨i1, i2⟩ := ih cs false hcs
        cases hL : splitScan { source := Pattern.plus p, ignoreCase := i, global := g }
            cs 0 false with
        | nil => exact absurd hL (splitScan_ne_nil _ _ _ _)
        | cons l0 lt =>
          rw [hL] at i1 i2
          refine ⟨by simp [consHead, h2], ?_⟩
          simp only [consHead]
          rw [List.count_cons_of_ne (by simp)]
          cases cs with
          | nil =>
            simp [splitScan] at hL
            simp [hL.2, h2]
          | cons d ds =>
            have hlast : (c :: d :: ds).getLast? = (d :: ds).getLast? := by
              simp [List.getLast?_cons_cons]
            rw [hlast]
            simp only [List.head?_cons, Option.all_some, h2] at i1 i2 ⊢
            by_cases hd : p d = true
            · have e0 : l0 = [] := by simpa using i1.2 hd
              subst e0
              rw [List.count_cons_self] at i2
              simp only [hd, if_true] at i2
              simp only [Bool.false_eq_true, if_false, Nat.zero_add]
              omega
            · have e0 : l0 ≠ [] := by
                intro e
                apply hd
                exact i1.1 (by simp [e])
              rw [List.count_cons_of_ne (fun e => e0 e.symm)] at i2
              simp only [hd, Bool.false_eq_true, if_false, Nat.zero_add] at i2
              simp only [Bool.false_eq_true, if_false, Nat.zero_add]
              exact i2

/-! ## Matches are pieces of the text -/

theorem mem_plusLens (p : Char → Bool) (s : Str) (n : Nat) :
    n ∈ plusLens p s ↔ 1 ≤ n ∧ n ≤ (s.takeWhile p).length := by
  induction s generalizing n with
  | nil => simp [plusLens]; omega
  | cons c cs ih =>
    by_cases h : p c
    · simp only [plusLens, h, if_true, List.mem_append, List.mem_map, List.mem_singleton,
        List.takeWhile_cons, List.length_cons]
      constructor
      · rintro (⟨a, ha, rfl⟩ | rfl)
        · have := (ih a).1 ha
          omega
        · omega
      · intro hn
        by_cases h1 : n = 1
        · exact Or.inr h1
        · refine Or.inl ⟨n - 1, (ih (n - 1)).2 ⟨by omega, by omega⟩, by omega⟩
    · simp [plusLens, h]
      omega

theorem takeWhile_length_take_append (p : Char → Bool) (s t : Str) (n : Nat)
    (h : n ≤ (s.takeWhile p).length) :
    n ≤ ((s.take n ++ t).takeWhile p).length := by
  induction s generalizing n with
  | nil => simp at h; subst h; simp
  | cons c cs ih =>
    cases n with
    | zero => simp
    | succ n =>
      by_cases hc : p c
      · simp only [List.takeWhile_cons, hc, if_true, List.length_cons] at h
        simp only [List.take_succ_cons, List.cons_append, List.takeWhile_cons, hc, if_true,
          List.length_cons]
        have := ih n (by omega)
        omega
      · simp [List.takeWhile_cons, hc] at h

/-- A match of length `n` lies inside the text and depends on its first `n`
characters only. -/
theorem lens_local (i : Bool) (r : Pattern) :
    ∀ (s : Str) (n : Nat), n ∈ r.lens i s →
      n ≤ s.length ∧ ∀ t : Str, n ∈ r.lens i (s.take n ++ t) := by
  induction r with
  | lit c =>
    intro s n hn
    cases s with
    | nil => simp [Pattern.lens] at hn
    | cons d ds =>
      by_cases h : canonicalize i d = canonicalize i c
      · simp only [Pattern.lens, h, if_true, List.mem_singleton] at hn
        subst hn
        exact ⟨by simp, fun t => by simp [Pattern.lens, h]⟩
      · simp [Pattern.lens, h] at hn
  | cls p =>
    intro s n hn
    cases s with
    | nil => simp [Pattern.lens] at hn
    | cons d ds =>
      by_cases h : p d
      · simp only [Pattern.lens, h, if_true, List.mem_singleton] at hn
        subst hn
        exact ⟨by simp, fun t => by simp [Pattern.lens, h]⟩
      · simp [Pattern.lens, h] at hn
  | plus p =>
    intro s n hn
    simp only [Pattern.lens] at hn ⊢
    obtain ⟨h1, h2⟩ := (mem_plusLens p s n).1 hn
    have hle : n ≤ s.length :=
      le_trans h2 (List.Sublist.length_le (List.takeWhile_sublist p))
    exact ⟨hle, fun t => (mem_plusLens p _ n).2 ⟨h1, takeWhile_length_take_append p s t n h2⟩⟩
  | seq a b iha ihb =>
    intro s n hn
    simp only [Pattern.lens, List.mem_flatMap, List.mem_map] at hn ⊢
    obtain ⟨n1, h1, n2, h2, rfl⟩ := hn
    obtain ⟨la, ta⟩ := iha s n1 h1
    obtain ⟨lb, tb⟩ := ihb (s.drop n1) n2 h2
    have hlen : n1 + n2 ≤ s.length := by
      simp only [List.length_drop] at lb
      omega
    refine ⟨hlen, fun t => ⟨n1, ?_, n2, ?_, rfl⟩⟩
    · have e : s.take (n1 + n2) ++ t = s.take n1 ++ ((s.drop n1).take n2 ++ t) := by
        rw [List.take_add, List.append_assoc]
      rw [e]
      exact ta _
    · have e : (s.take (n1 + n2) ++ t).drop n1 = (s.drop n1).take n2 ++ t := by
        rw [List.take_add, List.append_assoc]
        have hl : (s.take n1).length = n1 := by simp [la]
        rw [List.drop_append_of_le_length (by omega)]
        rw [List.drop_of_length_le (by omega)]
        simp
      rw [e]
      exact tb _
  | alt a b iha ihb =>
    intro s n hn
    simp only [Pattern.lens, List.mem_append] at hn ⊢
    rcases hn with h | h
    · exact ⟨(iha s n h).1, fun t => Or.inl ((iha s n h).2 t)⟩
    · exact ⟨(ihb s n h).1, fun t => Or.inr ((ihb s n h).2 t)⟩
  | opt a iha =>
    intro s n hn
    simp only [Pattern.lens, List.mem_append, List.mem_singleton] at hn ⊢
    rcases hn with h | h
    · exact ⟨(iha s n h).1, fun t => Or.inl ((iha s n h).2 t)⟩
    · subst h
      exact ⟨by simp, fun t => Or.inr rfl⟩
  | eps =>
    intro s n hn
    simp only [Pattern.lens, List.mem_singleton] at hn ⊢
    subst hn
    exact ⟨by simp, fun t => rfl⟩

theorem matchAt_take_matches (re : RegExp) (s : Str) (n : Nat) (h : re.matchAt s = some n) :
    n ≤ s.length ∧ Matches re (s.take n) := by
  have hm : n ∈ re.source.lens re.ignoreCase s := by
    unfold RegExp.matchAt at h
    exact List.mem_of_mem_head? h
  obtain ⟨hl, ht⟩ := lens_local re.ignoreCase re.source s n hm
  refine ⟨hl, ?_⟩
  have := ht []
  simpa [Matches, hl] using this

/-- Every match reported by the scan is a contiguous piece of the scanned text and is
matched by the expression. -/
theorem scanMatches_sound (re : RegExp) (s : Str) (k : Nat) :
    ∀ m ∈ scanMatches re s k, (∃ a b : Str, s = a ++ m ++ b) ∧ Matches re m := by
  induction s generalizing k with
  | nil =>
    intro m hm
    simp only [scanMatches] at hm
    cases h : re.matchAt [] with
    | none => simp [h] at hm
    | some n =>
      simp only [h, List.mem_singleton] at hm
      subst hm
      obtain ⟨hl, hmt⟩ := matchAt_take_matches re [] n h
      exact ⟨⟨[], [], by simp⟩, by simpa using hmt⟩
  | cons c cs ih =>
    have lift : ∀ m, ((∃ a b : Str, cs = a ++ m ++ b) ∧ Matches re m) →
        (∃ a b : Str, c :: cs = a ++ m ++ b) ∧ Matches re m := by
      rintro m ⟨⟨a, b, e⟩, hm⟩
      exact ⟨⟨c :: a, b, by simp [e]⟩, hm⟩
    intro m hm
    cases k with
    | succ k =>
      simp only [scanMatches] at hm
      exact lift m (ih k m hm)
    | zero =>
      rw [scanMatches] at hm
      cases h : re.matchAt (c :: cs) with
      | none =>
        simp only [h] at hm
        exact lift m (ih 0 m hm)
      | some n =>
        obtain ⟨hl, hmt⟩ := matchAt_take_matches re (c :: cs) n h
        cases n with
        | zero =>
          simp only [h, List.mem_cons] at hm
          rcases hm with rfl | hm
          · exact ⟨⟨[], c :: cs, by simp⟩, by simpa using hmt⟩
          · exact lift m (ih 0 m hm)
        | succ n =>
          simp only [h, List.mem_cons] at hm
          rcases hm with rfl | hm
          · exact ⟨⟨[], (c :: cs).drop (n + 1), by simp⟩, hmt⟩
          · exact lift m (ih n m hm)

/-! ## Sets of strings -/

theorem setOf_fold_spec {α : Type} [DecidableEq α] (xs : List α) :
    ∀ acc : List α, acc.Nodup →
      (xs.foldl (fun acc x => if x ∈ acc then acc else acc ++ [x]) acc).Nodup
      ∧ (∀ x, x ∈ xs.foldl (fun acc x => if x ∈ acc then acc else acc ++ [x]) acc
            ↔ x ∈ acc ∨ x ∈ xs)
      ∧ (xs.foldl (fun acc x => if x ∈ acc then acc else acc ++ [x]) acc).length
          ≤ acc.length + xs.length := by
  induction xs with
  | nil => intro acc h; simp [h]
  | cons y ys ih =>
    intro acc h
    simp only [List.foldl_cons]
    by_cases hy : y ∈ acc
    · simp only [hy, if_true]
      obtain ⟨a, b, c⟩ := ih acc h
      refine ⟨a, ?_, by simp only [List.length_cons]; omega⟩
      intro x
      rw [b x]
      constructor
      · rintro (h1 | h1)
        · exact Or.inl h1
        · exact Or.inr (List.mem_cons_of_mem _ h1)
      · rintro (h1 | h1)
        · exact Or.inl h1
        · rcases List.mem_cons.1 h1 with rfl | h2
          · exact Or.inl hy
          · exact Or.inr h2
    · simp only [hy, if_false]
      have hn : (acc ++ [y]).Nodup := by
        rw [List.nodup_append]
        refine ⟨h, List.nodup_singleton y, ?_⟩
        intro x hx hx2
        rw [List.mem_singleton] at hx2
        subst hx2
        exact hy hx
      obtain ⟨a, b, c⟩ := ih (acc ++ [y]) hn
      refine ⟨a, ?_, by simp only [List.length_cons]; simp only [List.length_append,
        List.length_singleton] at c; omega⟩
      intro x
      rw [b x]
      simp only [List.mem_append, List.mem_singleton, List.mem_cons]
      tauto

theorem setOf_nodup {α : Type} [DecidableEq α] (xs : List α) : (setOf xs).Nodup :=
  (setOf_fold_spec xs [] List.nodup_nil).1

theorem mem_setOf {α : Type} [DecidableEq α] (xs : List α) (x : α) :
    x ∈ setOf xs ↔ x ∈ xs := by
  have := (setOf_fold_spec xs [] List.nodup_nil).2.1 x
  simpa [setOf] using this

theorem setOf_length_le {α : Type} [DecidableEq α] (xs : List α) :
    (setOf xs).length ≤ xs.length := by
  have := (setOf_fold_spec xs [] List.nodup_nil).2.2
  simpa [setOf] using this

theorem setOf_length_eq_card {α : Type} [DecidableEq α] (xs : List α) :
    (setOf xs).length = xs.toFinset.card := by
  rw [← List.toFinset_card_of_nodup (setOf_nodup xs)]
  congr 1
  ext x
  simp [mem_setOf]

/-! ## The loop over a pattern table -/

theorem collectMatches_fold (text : Str) (ps : List RegExp)
    (hg : ∀ p ∈ ps, p.global = true) :
    ∀ acc : List Str × Nat,
      ps.foldl
        (fun acc pattern =>
          match jsMatch text pattern with
          | some found => (acc.1 ++ found, acc.2 + found.length)
          | none => acc) acc
      = (acc.1 ++ ps.flatMap (fun p => allMatches text p),
         acc.2 + (ps.map (fun p => (allMatches text p).length)).sum) := by
  induction ps with
  | nil => intro acc; simp
  | cons p ps ih =>
    intro acc
    have hp : p.global = true := hg p (List.mem_cons_self _ _)
    have hrest : ∀ q ∈ ps, q.global = true := fun q hq => hg q (List.mem_cons_of_mem _ hq)
    simp only [List.foldl_cons]
    rw [ih hrest]
    cases hm : allMatches text p with
    | nil => simp [jsMatch, hp, hm]
    | cons a as =>
      simp [jsMatch, hp, hm, List.flatMap_cons, List.append_assoc]
      omega

theorem collectMatches_eq (text : Str) (ps : List RegExp)
    (hg : ∀ p ∈ ps, p.global = true) :
    collectMatches text ps
      = (ps.flatMap (fun p => allMatches text p),
         (ps.map (fun p => (allMatches text p).length)).sum) := by
  unfold collectMatches
  rw [collectMatches_fold text ps hg]
  simp

theorem AI_PATTERNS_global : ∀ p ∈ AI_PATTERNS, p.global = true := by
  intro p hp
  simp only [AI_PATTERNS, List.mem_cons, List.mem_singleton, List.not_mem_nil, or_false] at hp
  rcases hp with h | h | h | h | h | h | h | h | h | h | h | h | h | h | h | h | h | h | h | h <;>
    rw [h] <;> rfl

theorem FILLER_PATTERNS_global : ∀ p ∈ FILLER_PATTERNS, p.global = true := by
  intro p hp
  simp only [FILLER_PATTERNS, List.mem_cons, List.mem_singleton, List.not_mem_nil,
    or_false] at hp
  rcases hp with h | h | h | h | h | h | h | h | h | h <;> rw [h] <;> rfl

/-! ## The three detectors -/

theorem jsDiv_of_ne (a b : ℚ) (h : b ≠ 0) : jsDiv a b = some (a / b) := by
  simp [jsDiv, h]

theorem aiLikelihood_eq (totalMatches wordCount : Nat) (h : 1 ≤ wordCount) :
    aiLikelihood totalMatches wordCount
      = some (min ((totalMatches : ℚ) / ((wordCount : ℚ) / 100) * 10) 100) := by
  have hw : (wordCount : ℚ) ≠ 0 := by
    have : (0 : ℚ) < (wordCount : ℚ) := by exact_mod_cast h
    exact ne_of_gt this
  have hh : (wordCount : ℚ) / 100 ≠ 0 := div_ne_zero hw (by norm_num)
  simp [aiLikelihood, jsDiv_of_ne _ _ (by norm_num : (100 : ℚ) ≠ 0), jsDiv_of_ne _ _ hh]

theorem fillerPercentage_eq (totalMatches wordCount : Nat) (h : 1 ≤ wordCount) :
    fillerPercentage totalMatches wordCount
      = some ((totalMatches : ℚ) / (wordCount : ℚ) * 100) := by
  have hw : (wordCount : ℚ) ≠ 0 := by
    have : (0 : ℚ) < (wordCount : ℚ) := by exact_mod_cast h
    exact ne_of_gt this
  simp [fillerPercentage, jsDiv_of_ne _ _ hw]

theorem repetitionRatio_eq (toLowerCase : Str → Str) (text : Str) :
    repetitionRatio toLowerCase text
      = some (if (sentences text).length = 0 then 0
              else (((sentences text).length : ℚ)
                      - ((uniqueSentences toLowerCase text).length : ℚ))
                    / ((sentences text).length : ℚ) * 100) := by
  unfold repetitionRatio
  by_cases h : (sentences text).length = 0
  · simp [h]
  · have hpos : (sentences text).length > 0 := Nat.pos_of_ne_zero h
    have hw : ((sentences text).length : ℚ) ≠ 0 := by exact_mod_cast h
    simp [h, hpos, jsDiv_of_ne _ _ hw]

theorem detectAIPatterns_eq (text : Str) :
    detectAIPatterns text
      = some
          { aiLikelihood :=
              toFixed (min ((totalMatchCount text AI_PATTERNS : ℚ)
                              / ((wordCount text : ℚ) / 100) * 10) 100) 1,
            patternsFound := setOf (AI_PATTERNS.flatMap (fun p => allMatches text p)),
            matchCount := totalMatchCount text AI_PATTERNS,
            assessment :=
              if min ((totalMatchCount text AI_PATTERNS : ℚ)
                        / ((wordCount text : ℚ) / 100) * 10) 100 > 50
              then "High likelihood of AI generation"
              else if min ((totalMatchCount text AI_PATTERNS : ℚ)
                        / ((wordCount text : ℚ) / 100) * 10) 100 > 25
              then "Moderate AI indicators detected"
              else "Low AI indicators - likely human-written" } := by
  unfold detectAIPatterns aiDetectionOf
  rw [collectMatches_eq text AI_PATTERNS AI_PATTERNS_global]
  simp only [aiLikelihood_eq _ _ (wordCount_pos text), Option.map_some', totalMatchCount]

theorem detectFillerWords_eq (text : Str) :
    detectFillerWords text
      = some
          { fillerPercentage :=
              toFixed ((totalMatchCount text FILLER_PATTERNS : ℚ)
                        / (wordCount text : ℚ) * 100) 2,
            fillersFound := setOf (FILLER_PATTERNS.flatMap (fun p => allMatches text p)),
            matchCount := totalMatchCount text FILLER_PATTERNS,
            assessment :=
              if (totalMatchCount text FILLER_PATTERNS : ℚ) / (wordCount text : ℚ) * 100 > 5
              then "High filler word usage - consider removing"
              else if (totalMatchCount text FILLER_PATTERNS : ℚ)
                        / (wordCount text : ℚ) * 100 > 2
              then "Moderate filler words detected"
              else "Good - minimal filler words" } := by
  unfold detectFillerWords fillerAnalysisOf
  rw [collectMatches_eq text FILLER_PATTERNS FILLER_PATTERNS_global]
  simp only [fillerPercentage_eq _ _ (wordCount_pos text), Option.map_some', totalMatchCount]

theorem detectPlagiarismIndicators_eq (toLowerCase : Str → Str) (text : Str) :
    detectPlagiarismIndicators toLowerCase text
      = some
          { repetitionPercentage := toFixed (repetitionValue toLowerCase text) 2,
            duplicateSentences :=
              ((sentences text).length : Int)
                - ((uniqueSentences toLowerCase text).length : Int),
            hasGenericOpening := hasGenericOpening text,
            plagiarismRisk :=
              if repetitionValue toLowerCase text > 20 then "High"
              else if repetitionValue toLowerCase text > 10 then "Medium" else "Low",
            suggestions :=
              suggestionsOf (repetitionValue toLowerCase text) (hasGenericOpening text) } := by
  unfold detectPlagiarismIndicators
  rw [repetitionRatio_eq]
  simp only [Option.map_some', repetitionValue]

theorem sentences_eq_splitOnP (text : Str) :
    sentences text
      = (text.splitOnP isSentenceEnd).filter (fun s => decide ((trim s).length > 10)) := by
  unfold sentences sentenceEndRun
  exact jsSplit_plus_filter isSentenceEnd false false _ (by simp [trim]) text

theorem uniqueSentences_length_le (toLowerCase : Str → Str) (text : Str) :
    (uniqueSentences toLowerCase text).length ≤ (sentences text).length := by
  unfold uniqueSentences
  exact le_trans (setOf_length_le _) (by simp)

theorem floor_half : Rat.floor (1 / 2) = 0 := by
  show ⌊(1 / 2 : ℚ)⌋ = 0
  rw [Int.floor_eq_iff]
  norm_num

theorem toFixed_zero_one : toFixed 0 1 = "0.0" := by
  simp only [toFixed, abs_zero, zero_mul, zero_add, floor_half]
  decide

theorem toFixed_zero_two : toFixed 0 2 = "0.00" := by
  simp only [toFixed, abs_zero, zero_mul, zero_add, floor_half]
  decide

theorem allMatches_nil_AI : AI_PATTERNS.flatMap (fun p => allMatches [] p) = [] := by
  decide

theorem allMatches_nil_FILLER : FILLER_PATTERNS.flatMap (fun p => allMatches [] p) = [] := by
  decide

theorem totalMatchCount_nil_AI : totalMatchCount [] AI_PATTERNS = 0 := by
  decide

theorem totalMatchCount_nil_FILLER : totalMatchCount [] FILLER_PATTERNS = 0 := by
  decide

theorem hasGenericOpening_nil : hasGenericOpening [] = false := by
  decide

/-! ## Expression objects carry no state between calls -/

theorem matchObject_global (text : Str) (o : RegExpObject) (h : o.re.global = true) :
    matchObject text o = ({ re := o.re, lastIndex := 0 }, jsMatch text o.re) := by
  simp [matchObject, jsMatch, h]

theorem collectMatchesIn_fold (text : Str) (objs : List RegExpObject)
    (hg : ∀ o ∈ objs, o.re.global = true) :
    ∀ st : List RegExpObject × (List Str × Nat),
      objs.foldl
        (fun st pattern =>
          match matchObject text pattern with
          | (pattern1, some found) =>
            (st.1 ++ [pattern1], (st.2.1 ++ found, st.2.2 + found.length))
          | (pattern1, none) => (st.1 ++ [pattern1], st.2)) st
      = (st.1 ++ objs.map (fun o => { re := o.re, lastIndex := 0 }),
         (objs.map (fun o => o.re)).foldl
           (fun acc pattern =>
             match jsMatch text pattern with
             | some found => (acc.1 ++ found, acc.2 + found.length)
             | none => acc) st.2) := by
  induction objs with
  | nil => intro st; simp
  | cons o os ih =>
    intro st
    have ho : o.re.global = true := hg o (List.mem_cons_self _ _)
    have hrest : ∀ q ∈ os, q.re.global = true := fun q hq => hg q (List.mem_cons_of_mem _ hq)
    simp only [List.foldl_cons, List.map_cons]
    rw [matchObject_global text o ho]
    cases hm : jsMatch text o.re with
    | none => simp only [ih hrest]; simp
    | some found => simp only [ih hrest]; simp

theorem collectMatchesIn_eq (text : Str) (objs : List RegExpObject)
    (hg : ∀ o ∈ objs, o.re.global = true) :
    collectMatchesIn text objs
      = (objs.map (fun o => { re := o.re, lastIndex := 0 }),
         collectMatches text (objs.map (fun o => o.re))) := by
  unfold collectMatchesIn collectMatches
  rw [collectMatchesIn_fold text objs hg]
  simp

theorem analyzeContentIn_eq (toLowerCase : Str → Str) (m : ModuleState) (text : Str)
    (ha : m.aiPatterns.map (fun o => o.re) = AI_PATTERNS)
    (hf : m.fillerPatterns.map (fun o => o.re) = FILLER_PATTERNS) :
    analyzeContentIn toLowerCase m text
      = ({ aiPatterns := m.aiPatterns.map (fun o => { re := o.re, lastIndex := 0 }),
           fillerPatterns := m.fillerPatterns.map (fun o => { re := o.re, lastIndex := 0 }) },
         analyzeContent toLowerCase text) := by
  have ga : ∀ o ∈ m.aiPatterns, o.re.global = true := by
    intro o ho
    apply AI_PATTERNS_global
    rw [← ha]
    exact List.mem_map_of_mem _ ho
  have gf : ∀ o ∈ m.fillerPatterns, o.re.global = true := by
    intro o ho
    apply FILLER_PATTERNS_global
    rw [← hf]
    exact List.mem_map_of_mem _ ho
  unfold analyzeContentIn analyzeContent detectAIPatterns detectFillerWords
  simp only [collectMatchesIn_eq text _ ga, collectMatchesIn_eq text _ gf, ha, hf]

theorem analyzeContentIn_loaded (toLowerCase : Str → Str) (m : ModuleState) (text : Str)
    (ha : m.aiPatterns.map (fun o => o.re) = AI_PATTERNS)
    (hf : m.fillerPatterns.map (fun o => o.re) = FILLER_PATTERNS) :
    (analyzeContentIn toLowerCase m text).1.aiPatterns.map (fun o => o.re) = AI_PATTERNS
    ∧ (analyzeContentIn toLowerCase m text).1.fillerPatterns.map (fun o => o.re)
        = FILLER_PATTERNS := by
  rw [analyzeContentIn_eq toLowerCase m text ha hf]
  simp [List.map_map, Function.comp_def, ha, hf]

theorem runAnalyses_loaded (toLowerCase : Str → Str) (texts : List Str) :
    ∀ m : ModuleState,
      m.aiPatterns.map (fun o => o.re) = AI_PATTERNS →
      m.fillerPatterns.map (fun o => o.re) = FILLER_PATTERNS →
      (runAnalyses toLowerCase m texts).aiPatterns.map (fun o => o.re) = AI_PATTERNS
      ∧ (runAnalyses toLowerCase m texts).fillerPatterns.map (fun o => o.re)
          = FILLER_PATTERNS := by
  induction texts with
  | nil => intro m ha hf; exact ⟨ha, hf⟩
  | cons t ts ih =>
    intro m ha hf
    obtain ⟨a1, f1⟩ := analyzeContentIn_loaded toLowerCase m t ha hf
    simpa [runAnalyses] using ih _ a1 f1

/-! ## Claims on the content heuristics -/

/-- C12: for the empty string `analyzeContent` returns `aiLikelihood` "0.0",
`fillerPercentage` "0.00" and `repetitionPercentage` "0.00", empty `patternsFound`,
`fillersFound` and `suggestions`, both match counts 0, no duplicate sentence and no
generic opening; a result is returned, so no division by zero occurs. -/
theorem analyzeContent_empty (toLowerCase : Str → Str) :
    analyzeContent toLowerCase []
      = some
          { aiDetection :=
              { aiLikelihood := "0.0", patternsFound := [], matchCount := 0,
                assessment := "Low AI indicators - likely human-written" },
            fillerAnalysis :=
              { fillerPercentage := "0.00", fillersFound := [], matchCount := 0,
                assessment := "Good - minimal filler words" },
            plagiarismIndicators :=
              { repetitionPercentage := "0.00", duplicateSentences := 0,
                hasGenericOpening := false, plagiarismRisk := "Low", suggestions := [] } } := by
  have hs : sentences [] = [] := by decide
  have hu : uniqueSentences toLowerCase [] = [] := by simp [uniqueSentences, hs, setOf]
  have hr : repetitionValue toLowerCase [] = 0 := by simp [repetitionValue, hs]
  have hw : wordCount [] = 1 := by decide
  unfold analyzeContent
  rw [detectAIPatterns_eq, detectFillerWords_eq, detectPlagiarismIndicators_eq]
  simp only [allMatches_nil_AI, allMatches_nil_FILLER, totalMatchCount_nil_AI,
    totalMatchCount_nil_FILLER, hasGenericOpening_nil, hs, hu, hr, hw]
  norm_num [toFixed_zero_one, toFixed_zero_two, setOf, suggestionsOf]

/-- C13: `analyzeContent` returns a result for every string; the word count both
detectors divide by is at least 1, and the repetition ratio is 0 when no sentence is
kept and a quotient by the positive sentence count otherwise. -/
theorem analyzeContent_total (toLowerCase : Str → Str) (text : Str) :
    (∃ r, analyzeContent toLowerCase text = some r)
    ∧ (∃ a, detectAIPatterns text = some a)
    ∧ (∃ f, detectFillerWords text = some f)
    ∧ (∃ p, detectPlagiarismIndicators toLowerCase text = some p)
    ∧ 1 ≤ wordCount text
    ∧ repetitionRatio toLowerCase text
        = some (if (sentences text).length = 0 then 0
                else (((sentences text).length : ℚ)
                        - ((uniqueSentences toLowerCase text).length : ℚ))
                      / ((sentences text).length : ℚ) * 100) := by
  refine ⟨?_, ⟨_, detectAIPatterns_eq text⟩, ⟨_, detectFillerWords_eq text⟩,
    ⟨_, detectPlagiarismIndicators_eq toLowerCase text⟩, wordCount_pos text,
    repetitionRatio_eq toLowerCase text⟩
  unfold analyzeContent
  rw [detectAIPatterns_eq, detectFillerWords_eq, detectPlagiarismIndicators_eq]
  exact ⟨_, rfl⟩

/-- C14: in every state of the module-level expression objects, `analyzeContent`
returns the value of the pure function of the text; a second call on the same text,
after any other texts were analysed in between, returns the same result. -/
theorem analyzeContent_deterministic (toLowerCase : Str → Str) (m : ModuleState)
    (others : List Str) (text : Str)
    (ha : m.aiPatterns.map (fun o => o.re) = AI_PATTERNS)
    (hf : m.fillerPatterns.map (fun o => o.re) = FILLER_PATTERNS) :
    (analyzeContentIn toLowerCase m text).2 = analyzeContent toLowerCase text
    ∧ (analyzeContentIn toLowerCase
          (runAnalyses toLowerCase (analyzeContentIn toLowerCase m text).1 others) text).2
        = (analyzeContentIn toLowerCase m text).2 := by
  obtain ⟨a1, f1⟩ := analyzeContentIn_loaded toLowerCase m text ha hf
  obtain ⟨a2, f2⟩ := runAnalyses_loaded toLowerCase others _ a1 f1
  rw [analyzeContentIn_eq toLowerCase _ text a2 f2, analyzeContentIn_eq toLowerCase m text ha hf]
  exact ⟨rfl, rfl⟩

/-- Witness for C14: a module whose expression objects all carry a stale
`lastIndex`, one other text analysed in between. -/
theorem analyzeContent_deterministic_witness :
    (analyzeContentIn asciiLowerCase staleModule "In order to win.".toList).2
        = analyzeContent asciiLowerCase "In order to win.".toList
    ∧ (analyzeContentIn asciiLowerCase
          (runAnalyses asciiLowerCase
            (analyzeContentIn asciiLowerCase staleModule "In order to win.".toList).1
            ["needless to say".toList]) "In order to win.".toList).2
        = (analyzeContentIn asciiLowerCase staleModule "In order to win.".toList).2 :=
  analyzeContent_deterministic asciiLowerCase staleModule ["needless to say".toList]
    "In order to win.".toList (by simp [staleModule, List.map_map, Function.comp_def])
    (by simp [staleModule, List.map_map, Function.comp_def])

/-- C15: `detectAIPatterns` computes the likelihood
`min(totalMatches / (wordCount / 100) * 10, 100)`, with `totalMatches` the sum over
the AI patterns of their numbers of matches; it reports `matchCount = totalMatches`,
and labels the likelihood High above 50, Moderate above 25 and up to 50, Low
otherwise. -/
theorem detectAIPatterns_likelihood (text : Str) :
    ∃ (likelihood : ℚ) (r : AIDetection),
      likelihood = min ((totalMatchCount text AI_PATTERNS : ℚ)
                          / ((wordCount text : ℚ) / 100) * 10) 100
      ∧ totalMatchCount text AI_PATTERNS
          = (AI_PATTERNS.map (fun p => (allMatches text p).length)).sum
      ∧ aiLikelihood (collectMatches text AI_PATTERNS).2 (wordCount text) = some likelihood
      ∧ detectAIPatterns text = some r
      ∧ r.matchCount = totalMatchCount text AI_PATTERNS
      ∧ (50 < likelihood → r.assessment = "High likelihood of AI generation")
      ∧ (25 < likelihood → likelihood ≤ 50 → r.assessment = "Moderate AI indicators detected")
      ∧ (likelihood ≤ 25 → r.assessment = "Low AI indicators - likely human-written") := by
  refine ⟨_, _, rfl, rfl, ?_, detectAIPatterns_eq text, rfl, ?_, ?_, ?_⟩
  · rw [collectMatches_eq text AI_PATTERNS AI_PATTERNS_global]
    exact aiLikelihood_eq _ _ (wordCount_pos text)
  · intro h
    simp only [gt_iff_lt, h, if_true]
  · intro h1 h2
    simp only [gt_iff_lt, not_lt.2 h2, h1, if_true, if_false]
  · intro h
    have h1 : ¬ (50 < min ((totalMatchCount text AI_PATTERNS : ℚ)
        / ((wordCount text : ℚ) / 100) * 10) 100) := not_lt.2 (le_trans h (by norm_num))
    simp only [gt_iff_lt, h1, not_lt.2 h, if_false]

/-- Witness for C15: a text of four words with one match has likelihood 100 and the
label High. -/
theorem detectAIPatterns_likelihood_witness :
    ∃ (likelihood : ℚ) (r : AIDetection),
      likelihood = min ((totalMatchCount "in order to win".toList AI_PATTERNS : ℚ)
                          / ((wordCount "in order to win".toList : ℚ) / 100) * 10) 100
      ∧ detectAIPatterns "in order to win".toList = some r
      ∧ r.matchCount = 1
      ∧ r.assessment = "High likelihood of AI generation" := by
  obtain ⟨l, r, h1, _, _, h4, h6, h7, _, _⟩ :=
    detectAIPatterns_likelihood "in order to win".toList
  have ht : totalMatchCount "in order to win".toList AI_PATTERNS = 1 := by decide
  have hw : wordCount "in order to win".toList = 4 := by decide
  refine ⟨l, r, h1, h4, by rw [h6, ht], h7 ?_⟩
  rw [h1, ht, hw]
  norm_num

theorem length_eq_filter_add_count_nil (pieces : List Str) :
    pieces.length
      = (pieces.filter (fun w => decide (w.length > 0))).length + pieces.count [] := by
  induction pieces with
  | nil => simp
  | cons w ws ih =>
    cases w with
    | nil => simp [List.filter_cons, ih]; omega
    | cons c cs =>
      rw [List.count_cons_of_ne (by simp)]
      simp [List.filter_cons, ih]
      omega

theorem getWordCount_eq_runs (text : Str) :
    getWordCount text = (nonWhiteSpaceRuns text).length := by
  unfold getWordCount nonWhiteSpaceRuns whiteSpaceRun
  by_cases h : text = []
  · subst h; simp
  · rw [if_neg h, jsSplit_plus_filter isWhiteSpace false false _ (by simp) text]

theorem wordCount_eq (text : Str) :
    wordCount text
      = getWordCount text + (if text.head?.all isWhiteSpace then 1 else 0)
          + (if text.getLast?.any isWhiteSpace then 1 else 0) := by
  rw [getWordCount_eq_runs]
  unfold wordCount nonWhiteSpaceRuns whiteSpaceRun
  rw [length_eq_filter_add_count_nil, jsSplit_plus_filter isWhiteSpace false false _ (by simp),
    jsSplit_plus_eq,
    (splitScan_plus_count_nil isWhiteSpace false false text.length text true (le_refl _)).2]
  omega

theorem testAnchored_iff (re : RegExp) (s : Str) :
    testAnchored re s = true ↔ ∃ opening rest : Str, s = opening ++ rest ∧ Matches re opening := by
  unfold testAnchored
  constructor
  · intro h
    obtain ⟨n, hn⟩ := Option.isSome_iff_exists.1 h
    obtain ⟨_, hm⟩ := matchAt_take_matches re s n hn
    exact ⟨s.take n, s.drop n, (List.take_append_drop n s).symm, hm⟩
  · rintro ⟨opening, rest, rfl, hm⟩
    have := (lens_local re.ignoreCase re.source opening opening.length hm).2 rest
    rw [List.take_length] at this
    unfold RegExp.matchAt
    cases hl : re.source.lens re.ignoreCase (opening ++ rest) with
    | nil => rw [hl] at this; simp at this
    | cons a as => simp

theorem hasGenericOpening_iff (text : Str) :
    hasGenericOpening text = true
      ↔ ∃ p ∈ genericOpenings, ∃ opening rest : Str,
          trim text = opening ++ rest ∧ Matches p opening := by
  unfold hasGenericOpening
  rw [List.any_eq_true]
  constructor
  · rintro ⟨p, hp, h⟩
    exact ⟨p, hp, (testAnchored_iff p _).1 h⟩
  · rintro ⟨p, hp, h⟩
    exact ⟨p, hp, (testAnchored_iff p _).2 h⟩

theorem suggestionsOf_eq (ratio : ℚ) (genericOpening : Bool) :
    suggestionsOf ratio genericOpening
      = (if 10 < ratio then ["Consider varying your sentence structure"] else [])
        ++ (if genericOpening = true then ["Consider a more unique opening line"] else []) := by
  unfold suggestionsOf
  by_cases h : 10 < ratio <;> cases genericOpening <;> simp [h]

/-- C16 fails as stated: on a text with leading and trailing whitespace the detectors
divide by 4 while the text has 2 words, and on the empty text by 1 while it has none. -/
theorem wordCount_differs_from_getWordCount :
    wordCount " a b ".toList = 4
    ∧ getWordCount " a b ".toList = 2
    ∧ (nonWhiteSpaceRuns " a b ".toList).length = 2
    ∧ wordCount [] = 1
    ∧ getWordCount [] = 0
    ∧ ¬ (∀ text : Str, wordCount text = getWordCount text) := by
  refine ⟨by decide, by decide, by decide, by decide, by decide, ?_⟩
  intro h
  exact absurd (h []) (by decide)

/-- C16, amended: for every non-empty text that neither starts nor ends with
whitespace, the `wordCount` the detectors divide by is the number of maximal runs of
non-whitespace characters, the number `getWordCount` returns; for the empty text the
detectors divide by 1 while `getWordCount` returns 0. -/
theorem wordCount_without_outer_whiteSpace (text : Str)
    (hfirst : text.head?.any isWhiteSpace = false)
    (hlast : text.getLast?.any isWhiteSpace = false) :
    getWordCount text = (nonWhiteSpaceRuns text).length
    ∧ (text ≠ [] →
        wordCount text = (nonWhiteSpaceRuns text).length
        ∧ wordCount text = getWordCount text)
    ∧ (text = [] → wordCount text = 1 ∧ getWordCount text = 0) := by
  refine ⟨getWordCount_eq_runs text, ?_, ?_⟩
  · intro hne
    have hall : text.head?.all isWhiteSpace = false := by
      cases text with
      | nil => exact absurd rfl hne
      | cons c cs => simpa using hfirst
    have h : wordCount text = getWordCount text := by
      rw [wordCount_eq text, hall, hlast]
      simp
    exact ⟨by rw [h, getWordCount_eq_runs], h⟩
  · intro he
    subst he
    exact ⟨by decide, by decide⟩

/-- Witness for C16: the text 'so it is' has three words for the detectors and for
`getWordCount`. -/
theorem wordCount_without_outer_whiteSpace_witness :
    "so it is".toList ≠ []
    ∧ wordCount "so it is".toList = 3
    ∧ wordCount "so it is".toList = getWordCount "so it is".toList := by
  have h := (wordCount_without_outer_whiteSpace "so it is".toList (by decide) (by decide)).2.1
    (by decide)
  have hr : (nonWhiteSpaceRuns "so it is".toList).length = 3 := by decide
  exact ⟨by decide, by rw [h.1, hr], h.2⟩

/-- C17: `detectFillerWords` computes `fillerPercentage = totalMatches / wordCount * 100`,
with `totalMatches` the sum over the filler patterns of their numbers of matches,
reports `matchCount = totalMatches`, and labels the percentage High above 5, Moderate
above 2 and up to 5, Good otherwise. -/
theorem detectFillerWords_percentage (text : Str) :
    ∃ (percentage : ℚ) (r : FillerAnalysis),
      percentage = (totalMatchCount text FILLER_PATTERNS : ℚ) / (wordCount text : ℚ) * 100
      ∧ totalMatchCount text FILLER_PATTERNS
          = (FILLER_PATTERNS.map (fun p => (allMatches text p).length)).sum
      ∧ fillerPercentage (collectMatches text FILLER_PATTERNS).2 (wordCount text)
          = some percentage
      ∧ detectFillerWords text = some r
      ∧ r.matchCount = totalMatchCount text FILLER_PATTERNS
      ∧ (5 < percentage → r.assessment = "High filler word usage - consider removing")
      ∧ (2 < percentage → percentage ≤ 5 → r.assessment = "Moderate filler words detected")
      ∧ (percentage ≤ 2 → r.assessment = "Good - minimal filler words") := by
  refine ⟨_, _, rfl, rfl, ?_, detectFillerWords_eq text, rfl, ?_, ?_, ?_⟩
  · rw [collectMatches_eq text FILLER_PATTERNS FILLER_PATTERNS_global]
    exact fillerPercentage_eq _ _ (wordCount_pos text)
  · intro h
    simp only [gt_iff_lt, h, if_true]
  · intro h1 h2
    simp only [gt_iff_lt, not_lt.2 h2, h1, if_true, if_false]
  · intro h
    have h1 : ¬ (5 < (totalMatchCount text FILLER_PATTERNS : ℚ) / (wordCount text : ℚ) * 100) :=
      not_lt.2 (le_trans h (by norm_num))
    simp only [gt_iff_lt, h1, not_lt.2 h, if_false]

/-- Witness for C17: one filler match in a text of four words is 25 percent, label
High. -/
theorem detectFillerWords_percentage_witness :
    ∃ (percentage : ℚ) (r : FillerAnalysis),
      percentage = 25
      ∧ detectFillerWords "it is basically done".toList = some r
      ∧ r.matchCount = 1
      ∧ r.assessment = "High filler word usage - consider removing" := by
  obtain ⟨l, r, h1, _, _, h4, h6, h7, _, _⟩ :=
    detectFillerWords_percentage "it is basically done".toList
  have ht : totalMatchCount "it is basically done".toList FILLER_PATTERNS = 1 := by decide
  have hw : wordCount "it is basically done".toList = 4 := by decide
  have hl : l = 25 := by rw [h1, ht, hw]; norm_num
  refine ⟨l, r, hl, h4, by rw [h6, ht], h7 ?_⟩
  rw [hl]
  norm_num

/-- C18: `patternsFound` has no string twice; each element is a contiguous piece of
the text found as a match of one of the AI patterns and matched by that pattern; every
match of every AI pattern occurs in it; its length is at most `matchCount`. -/
theorem patternsFound_properties (text : Str) :
    ∃ r : AIDetection,
      detectAIPatterns text = some r
      ∧ r.patternsFound.Nodup
      ∧ (∀ m ∈ r.patternsFound,
          (∃ before after : Str, text = before ++ m ++ after)
          ∧ ∃ p ∈ AI_PATTERNS, m ∈ allMatches text p ∧ Matches p m)
      ∧ (∀ p ∈ AI_PATTERNS, ∀ m ∈ allMatches text p, m ∈ r.patternsFound)
      ∧ r.patternsFound.length ≤ r.matchCount := by
  refine ⟨_, detectAIPatterns_eq text, setOf_nodup _, ?_, ?_, ?_⟩
  · intro m hm
    have hm2 : m ∈ AI_PATTERNS.flatMap (fun p => allMatches text p) := (mem_setOf _ m).1 hm
    obtain ⟨p, hp, hmp⟩ := List.mem_flatMap.1 hm2
    obtain ⟨hin, hmt⟩ := scanMatches_sound p text 0 m hmp
    exact ⟨hin, p, hp, hmp, hmt⟩
  · intro p hp m hm
    exact (mem_setOf _ m).2 (List.mem_flatMap.2 ⟨p, hp, hm⟩)
  · refine le_trans (setOf_length_le _) ?_
    simp only [totalMatchCount, List.length_flatMap]
    exact le_of_eq rfl

/-- C19: `detectPlagiarismIndicators` splits the text on runs of '.', '!' and '?',
keeps the pieces whose trimmed length exceeds 10, counts the distinct trimmed
lower-cased kept pieces, reports the difference of the two counts as
`duplicateSentences`, computes the ratio
`(sentenceCount - uniqueCount) / sentenceCount * 100` (0 without sentences), and sets
the risk High above 20, Medium above 10 and up to 20, Low otherwise. -/
theorem detectPlagiarismIndicators_ratio (toLowerCase : Str → Str) (text : Str) :
    ∃ (sentenceCount uniqueCount : ℕ) (ratio : ℚ) (r : PlagiarismIndicators),
      sentences text
        = (jsSplit text sentenceEndRun).filter (fun s => decide ((trim s).length > 10))
      ∧ sentences text
        = (text.splitOnP isSentenceEnd).filter (fun s => decide ((trim s).length > 10))
      ∧ sentenceCount = (sentences text).length
      ∧ uniqueCount
          = ((sentences text).map (fun s => toLowerCase (trim s))).toFinset.card
      ∧ uniqueCount ≤ sentenceCount
      ∧ ratio = (if sentenceCount = 0 then 0
                 else ((sentenceCount : ℚ) - (uniqueCount : ℚ)) / (sentenceCount : ℚ) * 100)
      ∧ repetitionRatio toLowerCase text = some ratio
      ∧ detectPlagiarismIndicators toLowerCase text = some r
      ∧ r.duplicateSentences = (sentenceCount : Int) - (uniqueCount : Int)
      ∧ (20 < ratio → r.plagiarismRisk = "High")
      ∧ (10 < ratio → ratio ≤ 20 → r.plagiarismRisk = "Medium")
      ∧ (ratio ≤ 10 → r.plagiarismRisk = "Low") := by
  have hu : (uniqueSentences toLowerCase text).length
      = ((sentences text).map (fun s => toLowerCase (trim s))).toFinset.card := by
    unfold uniqueSentences
    exact setOf_length_eq_card _
  refine ⟨(sentences text).length, (uniqueSentences toLowerCase text).length,
    repetitionValue toLowerCase text, _, rfl, sentences_eq_splitOnP text, rfl, hu,
    uniqueSentences_length_le toLowerCase text, rfl, ?_,
    detectPlagiarismIndicators_eq toLowerCase text, rfl, ?_, ?_, ?_⟩
  · rw [repetitionRatio_eq]; rfl
  · intro h
    simp only [gt_iff_lt, h, if_true]
  · intro h1 h2
    simp only [gt_iff_lt, not_lt.2 h2, h1, if_true, if_false]
  · intro h
    have h1 : ¬ (20 < repetitionValue toLowerCase text) :=
      not_lt.2 (le_trans h (by norm_num))
    simp only [gt_iff_lt, h1, not_lt.2 h, if_false]

/-- Witness for C19: without any kept sentence the ratio is 0 and the risk Low. -/
theorem detectPlagiarismIndicators_ratio_witness :
    ∃ r : PlagiarismIndicators,
      detectPlagiarismIndicators asciiLowerCase "Too short. Yes!".toList = some r
      ∧ r.plagiarismRisk = "Low" := by
  obtain ⟨sc, uc, ratio, r, _, _, h3, _, _, h6, _, h8, _, _, _, h13⟩ :=
    detectPlagiarismIndicators_ratio asciiLowerCase "Too short. Yes!".toList
  have hs : sentences "Too short. Yes!".toList = [] := by decide
  have h0 : sc = 0 := by rw [h3, hs]; rfl
  refine ⟨r, h8, h13 ?_⟩
  rw [h6, h0]
  norm_num

/-- C20: `suggestions` is 'Consider varying your sentence structure' exactly when the
repetition ratio exceeds 10, followed by 'Consider a more unique opening line' exactly
when `hasGenericOpening` holds, and nothing else; `hasGenericOpening` holds exactly
when the trimmed text starts with a match of one of the five generic-opening
patterns. -/
theorem suggestions_exact (toLowerCase : Str → Str) (text : Str) :
    ∃ (ratio : ℚ) (r : PlagiarismIndicators),
      repetitionRatio toLowerCase text = some ratio
      ∧ detectPlagiarismIndicators toLowerCase text = some r
      ∧ r.suggestions
          = (if 10 < ratio then ["Consider varying your sentence structure"] else [])
            ++ (if r.hasGenericOpening = true then ["Consider a more unique opening line"]
                else [])
      ∧ genericOpenings.length = 5
      ∧ (r.hasGenericOpening = true
          ↔ ∃ p ∈ genericOpenings, ∃ opening rest : Str,
              trim text = opening ++ rest ∧ Matches p opening) := by
  refine ⟨repetitionValue toLowerCase text, _, ?_,
    detectPlagiarismIndicators_eq toLowerCase text, suggestionsOf_eq _ _, rfl,
    hasGenericOpening_iff text⟩
  rw [repetitionRatio_eq]; rfl

/-! ## Rendering and the worked examples -/

theorem toFixed_of_bounds (x : ℚ) (d n : ℕ) (h0 : 0 ≤ x)
    (h1 : (n : ℚ) ≤ x * 10 ^ d + 1 / 2) (h2 : x * 10 ^ d + 1 / 2 < (n : ℚ) + 1) :
    toFixed x d
      = if d = 0 then Nat.repr n
        else Nat.repr (n / 10 ^ d) ++ "." ++ padDigits (n % 10 ^ d) d := by
  have hf : Rat.floor (|x| * 10 ^ d + 1 / 2) = (n : Int) := by
    show ⌊|x| * 10 ^ d + 1 / 2⌋ = (n : Int)
    rw [abs_of_nonneg h0, Int.floor_eq_iff]
    exact ⟨by exact_mod_cast h1, by exact_mod_cast h2⟩
  have hx : ¬ x < 0 := not_lt.2 h0
  simp only [toFixed, hf, Int.toNat_ofNat, hx, if_false]

theorem totalMatchCount_eq_length (text : Str) (ps : List RegExp) :
    totalMatchCount text ps = (ps.flatMap (fun p => allMatches text p)).length := by
  simp only [totalMatchCount, List.length_flatMap]
  rfl

theorem wordCount_of_trimmed (text : Str) (hh : text.head?.all isWhiteSpace = false)
    (hl : text.getLast?.any isWhiteSpace = false) :
    wordCount text = (nonWhiteSpaceRuns text).length := by
  rw [wordCount_eq, getWordCount_eq_runs, hh, hl]
  simp

theorem detectAIPatterns_of_one_match (text m : Str)
    (hm : AI_PATTERNS.flatMap (fun p => allMatches text p) = [m])
    (hw : wordCount text = 102) :
    detectAIPatterns text
      = some { aiLikelihood := "9.8", patternsFound := [m], matchCount := 1,
               assessment := "Low AI indicators - likely human-written" } := by
  have ht : totalMatchCount text AI_PATTERNS = 1 := by
    rw [totalMatchCount_eq_length, hm]; rfl
  have hv : min (((1 : ℕ) : ℚ) / (((102 : ℕ) : ℚ) / 100) * 10) 100 = 500 / 51 := by
    rw [min_eq_left] <;> norm_num
  have hf : toFixed (500 / 51) 1 = "9.8" := by
    rw [toFixed_of_bounds (500 / 51) 1 98 (by norm_num) (by norm_num) (by norm_num)]
    decide
  rw [detectAIPatterns_eq, hm, ht, hw, hv, hf]
  have h50 : ¬ ((500 : ℚ) / 51 > 50) := by norm_num
  have h25 : ¬ ((500 : ℚ) / 51 > 25) := by norm_num
  simp only [h50, h25, if_false]
  rfl

set_option maxRecDepth 100000 in
theorem conclusionText_matches :
    AI_PATTERNS.flatMap (fun p => allMatches conclusionText p) = ["In conclusion, ".toList] := by
  decide

set_option maxRecDepth 100000 in
theorem conclusionText_runs : (nonWhiteSpaceRuns conclusionText).length = 102 := by
  decide

set_option maxRecDepth 100000 in
theorem conclusionText_trimmed :
    conclusionText.head?.all isWhiteSpace = false
    ∧ conclusionText.getLast?.any isWhiteSpace = false := by
  decide

/-- C21 fails as stated: on a text made of 'In conclusion, ' and one hundred other
words, with no other match of an AI pattern, `detectAIPatterns` renders the likelihood
as "9.8", not "10.0": one match over 102 words. -/
theorem conclusion_example_is_not_ten :
    AI_PATTERNS.flatMap (fun p => allMatches conclusionText p) = ["In conclusion, ".toList]
    ∧ (nonWhiteSpaceRuns conclusionText).length = 2 + 100
    ∧ wordCount conclusionText = 102
    ∧ detectAIPatterns conclusionText
        = some { aiLikelihood := "9.8", patternsFound := ["In conclusion, ".toList],
                 matchCount := 1,
                 assessment := "Low AI indicators - likely human-written" }
    ∧ ¬ (∃ r, detectAIPatterns conclusionText = some r ∧ r.aiLikelihood = "10.0") := by
  have hw : wordCount conclusionText = 102 := by
    rw [wordCount_of_trimmed _ conclusionText_trimmed.1 conclusionText_trimmed.2,
      conclusionText_runs]
  have hd := detectAIPatterns_of_one_match conclusionText _ conclusionText_matches hw
  refine ⟨conclusionText_matches, conclusionText_runs, hw, hd, ?_⟩
  rintro ⟨r, hr, h10⟩
  rw [hd] at hr
  cases hr
  exact absurd h10 (by decide)

/-- C21, amended: for every text without leading or trailing whitespace in which the
only match of any AI pattern is one occurrence of 'In conclusion, ' and which has 102
words (the two of the phrase and 100 others), `detectAIPatterns` returns
`aiLikelihood` "9.8", `matchCount` 1 and `patternsFound` exactly
['In conclusion, ']. -/
theorem detectAIPatterns_one_conclusion (text : Str)
    (hm : AI_PATTERNS.flatMap (fun p => allMatches text p) = ["In conclusion, ".toList])
    (hr : (nonWhiteSpaceRuns text).length = 2 + 100)
    (hh : text.head?.all isWhiteSpace = false)
    (hl : text.getLast?.any isWhiteSpace = false) :
    detectAIPatterns text
      = some { aiLikelihood := "9.8", patternsFound := ["In conclusion, ".toList],
               matchCount := 1,
               assessment := "Low AI indicators - likely human-written" } :=
  detectAIPatterns_of_one_match text _ hm (by rw [wordCount_of_trimmed text hh hl, hr])

/-- Witness for C21: 'In conclusion,' followed by one hundred times ' so'. -/
theorem detectAIPatterns_one_conclusion_witness :
    detectAIPatterns conclusionText
      = some { aiLikelihood := "9.8", patternsFound := ["In conclusion, ".toList],
               matchCount := 1,
               assessment := "Low AI indicators - likely human-written" } :=
  detectAIPatterns_one_conclusion conclusionText conclusionText_matches conclusionText_runs
    conclusionText_trimmed.1 conclusionText_trimmed.2

theorem setOf_four {α : Type} [DecidableEq α] (a c d : α) (hca : c ≠ a) (hda : d ≠ a)
    (hcd : c ≠ d) : setOf [a, a, c, d] = [a, c, d] := by
  have hdc : d ≠ c := fun e => hcd e.symm
  simp [setOf, hca, hda, hdc]

/-- C22: for a text with four kept sentences of which the second equals the first
after trimming and lower-casing and the other two differ from it and from each other,
`detectPlagiarismIndicators` reports one duplicate sentence, `repetitionPercentage`
"25.00", the risk 'High', and 'Consider varying your sentence structure' as the first
suggestion. -/
theorem four_sentences_one_duplicate (toLowerCase : Str → Str) (text s1 s2 s3 s4 : Str)
    (hs : sentences text = [s1, s2, s3, s4])
    (h12 : toLowerCase (trim s2) = toLowerCase (trim s1))
    (h3 : toLowerCase (trim s3) ≠ toLowerCase (trim s1))
    (h4 : toLowerCase (trim s4) ≠ toLowerCase (trim s1))
    (h34 : toLowerCase (trim s3) ≠ toLowerCase (trim s4)) :
    ∃ r : PlagiarismIndicators,
      detectPlagiarismIndicators toLowerCase text = some r
      ∧ (∀ s ∈ [s1, s2, s3, s4], (trim s).length > 10)
      ∧ r.duplicateSentences = 1
      ∧ r.repetitionPercentage = "25.00"
      ∧ r.plagiarismRisk = "High"
      ∧ r.suggestions.head? = some "Consider varying your sentence structure"
      ∧ r.suggestions
          = "Consider varying your sentence structure"
              :: (if hasGenericOpening text = true then ["Consider a more unique opening line"]
                  else []) := by
  have hu : uniqueSentences toLowerCase text
      = [toLowerCase (trim s1), toLowerCase (trim s3), toLowerCase (trim s4)] := by
    unfold uniqueSentences
    rw [hs]
    simp only [List.map_cons, List.map_nil, h12]
    exact setOf_four _ _ _ h3 h4 h34
  have hv : repetitionValue toLowerCase text = 25 := by
    unfold repetitionValue
    rw [hs, hu]
    norm_num
  have hf : toFixed 25 2 = "25.00" := by
    rw [toFixed_of_bounds 25 2 2500 (by norm_num) (by norm_num) (by norm_num)]
    decide
  have hlen : ∀ s ∈ [s1, s2, s3, s4], (trim s).length > 10 := by
    intro s hmem
    rw [← hs] at hmem
    unfold sentences at hmem
    simpa using (List.mem_filter.1 hmem).2
  refine ⟨_, detectPlagiarismIndicators_eq toLowerCase text, hlen, ?_, ?_, ?_, ?_, ?_⟩
  · simp [hs, hu]
  · simp only [hv, hf]
  · simp only [hv]
    norm_num
  · simp only [hv, suggestionsOf_eq]
    norm_num
  · simp only [hv, suggestionsOf_eq]
    norm_num

set_option maxRecDepth 100000 in
/-- Witness for C22: four sentences, the second repeating the first in another case
and with a leading blank. -/
theorem four_sentences_one_duplicate_witness :
    ∃ r : PlagiarismIndicators,
      detectPlagiarismIndicators asciiLowerCase repeatedText = some r
      ∧ r.duplicateSentences = 1
      ∧ r.repetitionPercentage = "25.00"
      ∧ r.plagiarismRisk = "High"
      ∧ r.suggestions = ["Consider varying your sentence structure"] := by
  obtain ⟨r, h1, _, h3, h4, h5, _, h7⟩ :=
    four_sentences_one_duplicate asciiLowerCase repeatedText
      "The cat sat on the mat".toList " the CAT sat on the mat".toList
      "  Dogs bark at the moon".toList " Birds sing at dawn".toList
      (by decide) (by decide) (by decide) (by decide) (by decide)
  have hg : hasGenericOpening repeatedText = false := by decide
  refine ⟨r, h1, h3, h4, h5, ?_⟩
  rw [h7, hg]
  rfl

/-- C25 does not hold of the code: on the one-word text 'Clearly/obviously' two filler
patterns match, and `detectFillerWords` reports 200 percent. -/
theorem fillerPercentage_exceeds_hundred :
    wordCount "Clearly/obviously".toList = 1
    ∧ totalMatchCount "Clearly/obviously".toList FILLER_PATTERNS = 2
    ∧ fillerPercentage 2 1 = some 200
    ∧ detectFillerWords "Clearly/obviously".toList
        = some { fillerPercentage := "200.00",
                 fillersFound := ["obviously".toList, "Clearly".toList],
                 matchCount := 2,
                 assessment := "High filler word usage - consider removing" } := by
  have hw : wordCount "Clearly/obviously".toList = 1 := by decide
  have ht : totalMatchCount "Clearly/obviously".toList FILLER_PATTERNS = 2 := by decide
  have hm : FILLER_PATTERNS.flatMap (fun p => allMatches "Clearly/obviously".toList p)
      = ["obviously".toList, "Clearly".toList] := by decide
  have hv : (((2 : ℕ) : ℚ) / ((1 : ℕ) : ℚ) * 100) = 200 := by norm_num
  have hf : toFixed 200 2 = "200.00" := by
    rw [toFixed_of_bounds 200 2 20000 (by norm_num) (by norm_num) (by norm_num)]
    decide
  refine ⟨hw, ht, ?_, ?_⟩
  · rw [fillerPercentage_eq 2 1 (le_refl _), hv]
  · rw [detectFillerWords_eq, hm, ht, hw, hv, hf]
    have hs : setOf ["obviously".toList, "Clearly".toList]
        = ["obviously".toList, "Clearly".toList] := by decide
    rw [hs]
    norm_num

theorem uniqueSentences_length_pos (toLowerCase : Str → Str) (text : Str)
    (h : 1 ≤ (sentences text).length) : 1 ≤ (uniqueSentences toLowerCase text).length := by
  cases hs : sentences text with
  | nil => rw [hs] at h; simp at h
  | cons s ss =>
    apply List.length_pos.2
    intro hnil
    have : toLowerCase (trim s) ∈ uniqueSentences toLowerCase text := by
      unfold uniqueSentences
      rw [mem_setOf, hs]
      simp
    rw [hnil] at this
    simp at this

theorem likelihood_value_bounds (totalMatches wordCount : ℕ) :
    0 ≤ min ((totalMatches : ℚ) / ((wordCount : ℚ) / 100) * 10) 100
    ∧ min ((totalMatches : ℚ) / ((wordCount : ℚ) / 100) * 10) 100 ≤ 100 := by
  refine ⟨le_min ?_ (by norm_num), min_le_right _ _⟩
  positivity

theorem repetitionValue_bounds (toLowerCase : Str → Str) (text : Str) :
    0 ≤ repetitionValue toLowerCase text ∧ repetitionValue toLowerCase text < 100 := by
  have hle := uniqueSentences_length_le toLowerCase text
  unfold repetitionValue
  split
  · exact ⟨le_refl _, by norm_num⟩
  · rename_i hne
    have h1 : 1 ≤ (sentences text).length := Nat.one_le_iff_ne_zero.2 hne
    have hu := uniqueSentences_length_pos toLowerCase text h1
    have hn : (0 : ℚ) < ((sentences text).length : ℚ) := by exact_mod_cast h1
    have hu2 : (1 : ℚ) ≤ ((uniqueSentences toLowerCase text).length : ℚ) := by
      exact_mod_cast hu
    have hle2 : ((uniqueSentences toLowerCase text).length : ℚ)
        ≤ ((sentences text).length : ℚ) := by exact_mod_cast hle
    constructor
    · apply mul_nonneg _ (by norm_num)
      apply div_nonneg _ (le_of_lt hn)
      linarith
    · rw [div_mul_eq_mul_div, div_lt_iff₀ hn]
      nlinarith

/-- C29: the AI likelihood lies in `[0, 100]` and the repetition ratio in `[0, 100)`;
the duplicate-sentence count is never negative and, when at least one sentence is
kept, smaller than the sentence count. -/
theorem likelihood_and_ratio_bounds (toLowerCase : Str → Str) (text : Str) :
    ∃ (likelihood ratio : ℚ) (a : AIDetection) (p : PlagiarismIndicators),
      aiLikelihood (collectMatches text AI_PATTERNS).2 (wordCount text) = some likelihood
      ∧ detectAIPatterns text = some a
      ∧ 0 ≤ likelihood ∧ likelihood ≤ 100
      ∧ repetitionRatio toLowerCase text = some ratio
      ∧ detectPlagiarismIndicators toLowerCase text = some p
      ∧ 0 ≤ ratio ∧ ratio < 100
      ∧ 0 ≤ p.duplicateSentences
      ∧ (1 ≤ (sentences text).length →
          p.duplicateSentences < ((sentences text).length : Int)) := by
  have hle := uniqueSentences_length_le toLowerCase text
  have hl : aiLikelihood (collectMatches text AI_PATTERNS).2 (wordCount text)
      = some (min ((totalMatchCount text AI_PATTERNS : ℚ)
                    / ((wordCount text : ℚ) / 100) * 10) 100) := by
    rw [collectMatches_eq text AI_PATTERNS AI_PATTERNS_global]
    exact aiLikelihood_eq _ _ (wordCount_pos text)
  have hr : repetitionRatio toLowerCase text = some (repetitionValue toLowerCase text) := by
    rw [repetitionRatio_eq]; rfl
  have hb := likelihood_value_bounds (totalMatchCount text AI_PATTERNS) (wordCount text)
  have hrb := repetitionValue_bounds toLowerCase text
  have hd0 : (0 : Int) ≤ ((sentences text).length : Int)
      - ((uniqueSentences toLowerCase text).length : Int) := by omega
  have hd1 : 1 ≤ (sentences text).length →
      ((sentences text).length : Int) - ((uniqueSentences toLowerCase text).length : Int)
        < ((sentences text).length : Int) := by
    intro h1
    have hu := uniqueSentences_length_pos toLowerCase text h1
    omega
  exact ⟨_, _, _, _, hl, detectAIPatterns_eq text, hb.1, hb.2, hr,
    detectPlagiarismIndicators_eq toLowerCase text, hrb.1, hrb.2, hd0, hd1⟩

/-- Witness for C29: in the text of four sentences with one duplicate the duplicate
count 1 is below the sentence count 4. -/
theorem likelihood_and_ratio_bounds_witness :
    ∃ p : PlagiarismIndicators,
      detectPlagiarismIndicators asciiLowerCase repeatedText = some p
      ∧ p.duplicateSentences < 4 := by
  obtain ⟨_, _, _, p, _, _, _, _, _, h7, _, _, _, h12⟩ :=
    likelihood_and_ratio_bounds asciiLowerCase repeatedText
  have hl : (sentences repeatedText).length = 4 := by decide
  rw [hl] at h12
  exact ⟨p, h7, h12 (by norm_num)⟩

/-! ## Cleaning a text -/

theorem replaceScan_id (re : RegExp) (replacement : Str) (s : Str)
    (h0 : re.matchAt [] = none)
    (h : ∀ (c : Char) (cs : Str), c ∈ s → re.matchAt (c :: cs) = none) :
    replaceScan re replacement s 0 = s := by
  induction s with
  | nil => simp [replaceScan, h0]
  | cons c cs ih =>
    rw [replaceScan, h c cs (List.mem_cons_self _ _)]
    simp only
    rw [ih (fun d ds hd => h d ds (List.mem_cons_of_mem _ hd))]

theorem splitScan_id (re : RegExp) (s : Str) (fresh : Bool)
    (h : ∀ (c : Char) (cs : Str), c ∈ s → re.matchAt (c :: cs) = none) :
    splitScan re s 0 fresh = [s] := by
  induction s generalizing fresh with
  | nil => simp [splitScan]
  | cons c cs ih =>
    rw [splitScan, h c cs (List.mem_cons_self _ _)]
    simp only
    rw [ih false (fun d ds hd => h d ds (List.mem_cons_of_mem _ hd))]
    rfl

theorem replaceScan_whiteSpace_chars (s : Str) (k : Nat) :
    ∀ c ∈ replaceScan (flagG (Pattern.plus isWhiteSpace)) [' '] s k,
      c = ' ' ∨ isWhiteSpace c = false := by
  induction s generalizing k with
  | nil =>
    intro c hc
    simp [replaceScan, flagG, plus_matchAt_nil] at hc
  | cons d ds ih =>
    intro c hc
    cases k with
    | succ k =>
      rw [replaceScan] at hc
      exact ih k c hc
    | zero =>
      rw [replaceScan, flagG, plus_matchAt] at hc
      by_cases hd : isWhiteSpace d = true
      · simp only [hd, if_true, List.singleton_append, List.mem_cons] at hc
        rcases hc with rfl | hc
        · exact Or.inl rfl
        · exact ih _ c hc
      · have hd2 : isWhiteSpace d = false := by simpa using hd
        simp only [hd2, Bool.false_eq_true, if_false, List.mem_cons] at hc
        rcases hc with rfl | hc
        · exact Or.inr hd2
        · exact ih 0 c hc

theorem replaceScan_nil_subset (re : RegExp) (s : Str) (k : Nat) :
    ∀ c ∈ replaceScan re [] s k, c ∈ s := by
  induction s generalizing k with
  | nil =>
    intro c hc
    rw [replaceScan] at hc
    split at hc <;> simp at hc
  | cons d ds ih =>
    intro c hc
    cases k with
    | succ k =>
      rw [replaceScan] at hc
      exact List.mem_cons_of_mem _ (ih k c hc)
    | zero =>
      rw [replaceScan] at hc
      split at hc
      · simp only [List.nil_append, List.mem_cons] at hc
        rcases hc with rfl | hc
        · exact List.mem_cons_self _ _
        · exact List.mem_cons_of_mem _ (ih 0 c hc)
      · simp only [List.nil_append] at hc
        exact List.mem_cons_of_mem _ (ih _ c hc)
      · simp only [List.mem_cons] at hc
        rcases hc with rfl | hc
        · exact List.mem_cons_self _ _
        · exact List.mem_cons_of_mem _ (ih 0 c hc)

theorem lit_matchAt_ne (a c : Char) (cs : Str) (g : Bool) (h : c ≠ a) :
    RegExp.matchAt { source := Pattern.lit a, ignoreCase := false, global := g } (c :: cs)
      = none := by
  simp [RegExp.matchAt, Pattern.lens, canonicalize, h]

theorem seq_lit_matchAt_ne (a c : Char) (r : Pattern) (cs : Str) (g : Bool) (h : c ≠ a) :
    RegExp.matchAt { source := Pattern.seq (Pattern.lit a) r, ignoreCase := false,
                     global := g } (c :: cs) = none := by
  simp [RegExp.matchAt, Pattern.lens, canonicalize, h]

theorem trim_subset (s : Str) : ∀ c ∈ trim s, c ∈ s := by
  intro c hc
  unfold trim at hc
  rw [List.mem_reverse] at hc
  have h1 := (List.dropWhile_sublist isWhiteSpace).subset hc
  rw [List.mem_reverse] at h1
  exact (List.dropWhile_sublist isWhiteSpace).subset h1

/-- The text after the first two replacements of `cleanText`. -/
theorem cleanText_eq (text : Str) :
    cleanText text
      = trim (jsReplace (jsReplace text (flagG (Pattern.plus isWhiteSpace)) [' '])
          (flagG (Pattern.cls isControlChar)) []) := by
  by_cases h : text = []
  · subst h
    decide
  · have hch : ∀ c ∈ jsReplace (jsReplace text (flagG (Pattern.plus isWhiteSpace)) [' '])
        (flagG (Pattern.cls isControlChar)) [], c = ' ' ∨ isWhiteSpace c = false := by
      intro c hc
      exact replaceScan_whiteSpace_chars text 0 c (replaceScan_nil_subset _ _ 0 c hc)
    have hcr : ∀ c ∈ jsReplace (jsReplace text (flagG (Pattern.plus isWhiteSpace)) [' '])
        (flagG (Pattern.cls isControlChar)) [], c ≠ '\r' := by
      intro c hc e
      subst e
      rcases hch _ hc with h1 | h1
      · exact absurd h1 (by decide)
      · exact absurd h1 (by decide)
    have hlf : ∀ c ∈ jsReplace (jsReplace text (flagG (Pattern.plus isWhiteSpace)) [' '])
        (flagG (Pattern.cls isControlChar)) [], c ≠ '\n' := by
      intro c hc e
      subst e
      rcases hch _ hc with h1 | h1
      · exact absurd h1 (by decide)
      · exact absurd h1 (by decide)
    unfold cleanText
    rw [if_neg h]
    simp only
    have e3 : jsReplace (jsReplace (jsReplace text (flagG (Pattern.plus isWhiteSpace)) [' '])
          (flagG (Pattern.cls isControlChar)) [])
        (flagG (Pattern.seq (Pattern.lit '\r') (Pattern.lit '\n'))) ['\n']
        = jsReplace (jsReplace text (flagG (Pattern.plus isWhiteSpace)) [' '])
          (flagG (Pattern.cls isControlChar)) [] := by
      apply replaceScan_id _ _ _ (by decide)
      intro c cs hc
      exact seq_lit_matchAt_ne '\r' c _ cs true (hcr c hc)
    rw [e3]
    have e4 : jsReplace (jsReplace (jsReplace text (flagG (Pattern.plus isWhiteSpace)) [' '])
          (flagG (Pattern.cls isControlChar)) [])
        (flagG (Pattern.lit '\r')) ['\n']
        = jsReplace (jsReplace text (flagG (Pattern.plus isWhiteSpace)) [' '])
          (flagG (Pattern.cls isControlChar)) [] := by
      apply replaceScan_id _ _ _ (by decide)
      intro c cs hc
      exact lit_matchAt_ne '\r' c cs true (hcr c hc)
    rw [e4]
    have e5 : jsReplace (jsReplace (jsReplace text (flagG (Pattern.plus isWhiteSpace)) [' '])
          (flagG (Pattern.cls isControlChar)) [])
        (flagG (Pattern.seq (Pattern.lit '\n')
          (Pattern.seq (Pattern.lit '\n') (Pattern.plus isLineFeed)))) ['\n', '\n']
        = jsReplace (jsReplace text (flagG (Pattern.plus isWhiteSpace)) [' '])
          (flagG (Pattern.cls isControlChar)) [] := by
      apply replaceScan_id _ _ _ (by decide)
      intro c cs hc
      exact seq_lit_matchAt_ne '\n' c _ cs true (hlf c hc)
    rw [e5]

theorem cleanText_chars (text : Str) :
    ∀ c ∈ cleanText text, c = ' ' ∨ isWhiteSpace c = false := by
  intro c hc
  rw [cleanText_eq] at hc
  exact replaceScan_whiteSpace_chars text 0 c
    (replaceScan_nil_subset _ _ 0 c (trim_subset _ c hc))

theorem cleanText_no_lineFeed (text : Str) : '\n' ∉ cleanText text := by
  intro h
  rcases cleanText_chars text _ h with h1 | h1
  · exact absurd h1 (by decide)
  · exact absurd h1 (by decide)

theorem trim_head (s : Str) : (trim s).head?.all isWhiteSpace = false ∨ trim s = [] := by
  unfold trim
  cases hy : s.dropWhile isWhiteSpace with
  | nil => right; simp
  | cons d ds =>
    have hd : isWhiteSpace d = false := by
      have := List.head_dropWhile_not isWhiteSpace s (by simp [hy])
      simp only [hy, List.head_cons] at this
      simpa using this
    cases hx : ((d :: ds).reverse.dropWhile isWhiteSpace).reverse with
    | nil => right; rfl
    | cons x xs =>
      left
      obtain ⟨t, ht⟩ := List.dropWhile_suffix isWhiteSpace (l := (d :: ds).reverse)
      have e : ((d :: ds).reverse.dropWhile isWhiteSpace).reverse ++ t.reverse = d :: ds := by
        rw [← List.reverse_append, ht, List.reverse_reverse]
      rw [hx] at e
      have hxd : x = d := by
        simp only [List.cons_append, List.cons.injEq] at e
        exact e.1
      simp [hxd, hd]

theorem trim_last (s : Str) : (trim s).getLast?.any isWhiteSpace = false := by
  unfold trim
  rw [List.getLast?_reverse]
  cases hy : (s.dropWhile isWhiteSpace).reverse.dropWhile isWhiteSpace with
  | nil => simp
  | cons d ds =>
    have := List.head_dropWhile_not isWhiteSpace (s.dropWhile isWhiteSpace).reverse
      (by simp [hy])
    simp only [hy, List.head_cons] at this
    simpa using this

theorem nonWhiteSpaceRuns_pos (c : Char) (cs : Str) (h : isWhiteSpace c = false) :
    1 ≤ (nonWhiteSpaceRuns (c :: cs)).length := by
  unfold nonWhiteSpaceRuns
  rw [List.splitOnP_cons]
  simp only [h, Bool.false_eq_true, if_false]
  cases hm : List.splitOnP isWhiteSpace cs with
  | nil => exact absurd hm (splitOnP_ne_nil _ _)
  | cons a as => simp [List.modifyHead, List.filter_cons]

theorem getWordCount_cleanText_pos (text : Str) (h : cleanText text ≠ []) :
    1 ≤ getWordCount (cleanText text) := by
  rw [getWordCount_eq_runs]
  have hh : (cleanText text).head?.all isWhiteSpace = false := by
    rw [cleanText_eq] at h ⊢
    rcases trim_head _ with h1 | h1
    · exact h1
    · exact absurd h1 h
  cases hc : cleanText text with
  | nil => exact absurd hc h
  | cons c cs =>
    rw [hc] at hh
    exact nonWhiteSpaceRuns_pos c cs (by simpa using hh)

theorem getParagraphCount_cleanText_le (text : Str) :
    getParagraphCount (cleanText text) ≤ 1 := by
  unfold getParagraphCount
  split
  · exact Nat.zero_le _
  · rename_i hne
    have hs : jsSplit (cleanText text) blankLineRun = [cleanText text] := by
      cases hc : cleanText text with
      | nil => exact absurd hc hne
      | cons c cs =>
        rw [← hc]
        have : jsSplit (cleanText text) blankLineRun
            = splitScan blankLineRun (cleanText text) 0 true := by
          rw [hc]; rfl
        rw [this]
        apply splitScan_id
        intro d ds hd
        apply seq_lit_matchAt_ne
        intro e
        subst e
        exact cleanText_no_lineFeed text hd
    rw [hs]
    exact List.length_filter_le _ _

/-- C28 does not hold of the code: a control character between two blanks is removed
after the whitespace runs were collapsed, which leaves two consecutive blanks. -/
theorem cleanText_leaves_double_blank :
    cleanText ['a', ' ', Char.ofNat 1, ' ', 'b'] = ['a', ' ', ' ', 'b'] := by
  decide

/-- C30: `getTextStats` returns a result with `paragraphCount` 0 or 1; the cleaned
text contains no line feed, every whitespace character in it is a blank, and when the
cleaned text is not empty its word count, the divisor of `averageWordLength`, is at
least 1. -/
theorem getTextStats_paragraphs (text : Str) :
    ∃ st : TextStats,
      getTextStats text = some st
      ∧ st.paragraphCount = getParagraphCount (cleanText text)
      ∧ (st.paragraphCount = 0 ∨ st.paragraphCount = 1)
      ∧ '\n' ∉ cleanText text
      ∧ (∀ c ∈ cleanText text, isWhiteSpace c = true → c = ' ')
      ∧ st.wordCount = getWordCount (cleanText text)
      ∧ (cleanText text ≠ [] → 1 ≤ getWordCount (cleanText text)) := by
  have hp := getParagraphCount_cleanText_le text
  have hp2 : getParagraphCount (cleanText text) = 0 ∨ getParagraphCount (cleanText text) = 1 := by
    omega
  have hws : ∀ c ∈ cleanText text, isWhiteSpace c = true → c = ' ' := by
    intro c hc hw
    rcases cleanText_chars text c hc with h1 | h1
    · exact h1
    · rw [h1] at hw; exact absurd hw (by decide)
  by_cases hne : cleanText text = []
  · refine ⟨{ wordCount := getWordCount (cleanText text),
              characterCount := getCharacterCount (cleanText text),
              sentenceCount := getSentenceCount (cleanText text),
              paragraphCount := getParagraphCount (cleanText text),
              averageWordLength := AverageWordLength.zero }, ?_, rfl, hp2,
      cleanText_no_lineFeed text, hws, rfl, fun h => absurd hne h⟩
    unfold getTextStats
    simp [hne]
  · have hw := getWordCount_cleanText_pos text hne
    have hq : ((getWordCount (cleanText text) : ℕ) : ℚ) ≠ 0 := by
      have : (0 : ℚ) < ((getWordCount (cleanText text) : ℕ) : ℚ) := by exact_mod_cast hw
      exact ne_of_gt this
    have hlen : (cleanText text).length > 0 := List.length_pos.2 hne
    refine ⟨{ wordCount := getWordCount (cleanText text),
              characterCount := getCharacterCount (cleanText text),
              sentenceCount := getSentenceCount (cleanText text),
              paragraphCount := getParagraphCount (cleanText text),
              averageWordLength := AverageWordLength.rendered
                (toFixed (((jsReplace (cleanText text)
                  (flagG (Pattern.cls isWhiteSpace)) []).length : ℚ)
                    / (getWordCount (cleanText text) : ℚ)) 2) }, ?_, rfl, hp2,
      cleanText_no_lineFeed text, hws, rfl, fun _ => hw⟩
    unfold getTextStats
    simp only [hlen, if_true, jsDiv_of_ne _ _ hq, Option.map_some']

/-- Witness for C30: a text with blank lines is cleaned to one paragraph of two
words. -/
theorem getTextStats_paragraphs_witness :
    cleanText "One\n\n\ntwo ".toList ≠ [] ∧ 1 ≤ getWordCount (cleanText "One\n\n\ntwo ".toList) := by
  have hne : cleanText "One\n\n\ntwo ".toList ≠ [] := by decide
  obtain ⟨_, _, _, _, _, _, _, h⟩ := getTextStats_paragraphs "One\n\n\ntwo ".toList
  exact ⟨hne, h hne⟩

/-! ## Case-insensitive matching -/

theorem plusLens_map (f : Char → Char) (p : Char → Bool) (s : Str)
    (hp : ∀ c ∈ s, p (f c) = p c) : plusLens p (s.map f) = plusLens p s := by
  induction s with
  | nil => rfl
  | cons c cs ih =>
    simp only [List.map_cons, plusLens, hp c (List.mem_cons_self _ _),
      ih (fun d hd => hp d (List.mem_cons_of_mem _ hd))]

theorem lens_map (i : Bool) (f : Char → Char) (r : Pattern) (hr : r.caseBlind i f) :
    ∀ s : Str, (∀ c ∈ s, caseNeutral f c) → r.lens i (s.map f) = r.lens i s := by
  induction r with
  | lit a =>
    intro s hs
    have hi : i = true := hr
    subst hi
    cases s with
    | nil => rfl
    | cons d ds =>
      simp only [List.map_cons, Pattern.lens, (hs d (List.mem_cons_self _ _)).1]
  | cls p =>
    intro s hs
    cases s with
    | nil => rfl
    | cons d ds =>
      have hd := hs d (List.mem_cons_self _ _)
      simp only [List.map_cons, Pattern.lens, hr d hd]
  | plus p =>
    intro s hs
    simp only [Pattern.lens]
    exact plusLens_map f p s (fun c hc => hr c (hs c hc))
  | seq a b iha ihb =>
    intro s hs
    simp only [Pattern.lens]
    rw [iha hr.1 s hs]
    congr 1
    funext n
    have hd : ∀ c ∈ s.drop n, caseNeutral f c := fun c hc => hs c (List.mem_of_mem_drop hc)
    rw [← List.map_drop, ihb hr.2 _ hd]
  | alt a b iha ihb =>
    intro s hs
    simp only [Pattern.lens, iha hr.1 s hs, ihb hr.2 s hs]
  | opt a iha =>
    intro s hs
    simp only [Pattern.lens, iha hr s hs]
  | eps =>
    intro s hs
    rfl

theorem matchAt_map (f : Char → Char) (re : RegExp)
    (hr : re.source.caseBlind re.ignoreCase f) (s : Str) (hs : ∀ c ∈ s, caseNeutral f c) :
    re.matchAt (s.map f) = re.matchAt s := by
  unfold RegExp.matchAt
  rw [lens_map re.ignoreCase f re.source hr s hs]

theorem scanMatches_map (f : Char → Char) (re : RegExp)
    (hr : re.source.caseBlind re.ignoreCase f) (s : Str) :
    ∀ k : Nat, (∀ c ∈ s, caseNeutral f c) →
      scanMatches re (s.map f) k = (scanMatches re s k).map (List.map f) := by
  induction s with
  | nil =>
    intro k _
    simp only [List.map_nil, scanMatches]
    cases re.matchAt [] <;> rfl
  | cons c cs ih =>
    intro k hs
    have hcs : ∀ d ∈ cs, caseNeutral f d := fun d hd => hs d (List.mem_cons_of_mem _ hd)
    cases k with
    | succ k =>
      simp only [List.map_cons, scanMatches]
      exact ih k hcs
    | zero =>
      have hm := matchAt_map f re hr (c :: cs) hs
      rw [List.map_cons] at hm
      rw [List.map_cons, scanMatches, scanMatches, hm]
      cases re.matchAt (c :: cs) with
      | none => exact ih 0 hcs
      | some n =>
        cases n with
        | zero => simp only [List.map_cons, List.map_nil, ih 0 hcs]
        | succ n =>
          simp only [List.map_cons, ih n hcs, List.take_succ_cons, List.map_take]

theorem consHead_map (f : Char → Char) (c : Char) (l : List Str) :
    consHead (f c) (l.map (List.map f)) = (consHead c l).map (List.map f) := by
  cases l <;> rfl

theorem splitScan_map (f : Char → Char) (re : RegExp)
    (hr : re.source.caseBlind re.ignoreCase f) (s : Str) :
    ∀ (k : Nat) (fresh : Bool), (∀ c ∈ s, caseNeutral f c) →
      splitScan re (s.map f) k fresh = (splitScan re s k fresh).map (List.map f) := by
  induction s with
  | nil =>
    intro k fresh _
    rfl
  | cons c cs ih =>
    intro k fresh hs
    have hcs : ∀ d ∈ cs, caseNeutral f d := fun d hd => hs d (List.mem_cons_of_mem _ hd)
    cases k with
    | succ k =>
      simp only [List.map_cons, splitScan]
      exact ih k fresh hcs
    | zero =>
      have hm := matchAt_map f re hr (c :: cs) hs
      rw [List.map_cons] at hm
      rw [List.map_cons, splitScan, splitScan, hm]
      cases re.matchAt (c :: cs) with
      | none =>
        simp only [ih 0 false hcs, consHead_map]
      | some n =>
        cases n with
        | zero =>
          cases fresh
          · simp only [Bool.false_eq_true, if_false, ih 0 false hcs, consHead_map,
              List.map_cons, List.map_nil]
          · simp only [if_true, ih 0 false hcs, consHead_map]
        | succ n =>
          simp only [ih n true hcs, List.map_cons, List.map_nil]

theorem wordCount_map (f : Char → Char) (text : Str) (hs : ∀ c ∈ text, caseNeutral f c) :
    wordCount (text.map f) = wordCount text := by
  have hb : (Pattern.plus isWhiteSpace).caseBlind false f := fun c hc => hc.2
  unfold wordCount whiteSpaceRun
  rw [jsSplit_plus_eq, jsSplit_plus_eq,
    splitScan_map f { source := Pattern.plus isWhiteSpace, ignoreCase := false,
                      global := false } hb text 0 true hs, List.length_map]

theorem str_caseBlind (f : Char → Char) (s : String) : (str s).caseBlind true f := by
  unfold str
  induction s.toList with
  | nil => trivial
  | cons c cs ih => exact ⟨rfl, ih⟩

theorem anyOf_caseBlind (f : Char → Char) (l : List String) : (anyOf l).caseBlind true f := by
  induction l with
  | nil => intro c _; rfl
  | cons s ss ih =>
    cases ss with
    | nil => exact str_caseBlind f s
    | cons t ts => exact ⟨str_caseBlind f s, ih⟩

theorem cat_nil_caseBlind (f : Char → Char) : (cat []).caseBlind true f := trivial

theorem cat_cons_caseBlind (f : Char → Char) (p : Pattern) (ps : List Pattern)
    (hp : p.caseBlind true f) (hps : (cat ps).caseBlind true f) :
    (cat (p :: ps)).caseBlind true f := ⟨hp, hps⟩

theorem AI_PATTERNS_caseBlind (f : Char → Char) :
    ∀ re ∈ AI_PATTERNS, re.ignoreCase = true ∧ re.source.caseBlind true f := by
  have hws : (Pattern.cls isWhiteSpace).caseBlind true f := fun c hc => hc.2
  have hopt : (Pattern.opt (Pattern.lit ',')).caseBlind true f := rfl
  intro re hre
  simp only [AI_PATTERNS, List.mem_cons, List.mem_singleton, List.not_mem_nil, or_false] at hre
  rcases hre with h | h | h | h | h | h | h | h | h | h | h | h | h | h | h | h | h | h | h | h <;>
    subst h <;> refine ⟨rfl, ?_⟩ <;> simp only [gi] <;>
    repeat' (first
      | exact str_caseBlind f _
      | exact anyOf_caseBlind f _
      | exact hws
      | exact hopt
      | exact cat_nil_caseBlind f
      | refine cat_cons_caseBlind f _ _ ?_ ?_)

theorem totalMatchCount_map (f : Char → Char) (text : Str)
    (hs : ∀ c ∈ text, caseNeutral f c) :
    totalMatchCount (text.map f) AI_PATTERNS = totalMatchCount text AI_PATTERNS := by
  unfold totalMatchCount
  congr 1
  apply List.map_congr_left
  intro re hre
  obtain ⟨hi, hb⟩ := AI_PATTERNS_caseBlind f re hre
  unfold allMatches
  rw [scanMatches_map f re (by rw [hi]; exact hb) text 0 hs, List.length_map]

theorem ascii_toUpper_neutral :
    ∀ n : Nat, n < 128 →
      (canonicalize true (Char.ofNat n).toUpper = canonicalize true (Char.ofNat n)
        ∧ isWhiteSpace (Char.ofNat n).toUpper = isWhiteSpace (Char.ofNat n)) := by
  decide

theorem ascii_toLower_neutral :
    ∀ n : Nat, n < 128 →
      (canonicalize true (Char.ofNat n).toLower = canonicalize true (Char.ofNat n)
        ∧ isWhiteSpace (Char.ofNat n).toLower = isWhiteSpace (Char.ofNat n)) := by
  decide

theorem caseNeutral_toUpper (c : Char) (h : c.toNat < 128) : caseNeutral Char.toUpper c := by
  have := ascii_toUpper_neutral c.toNat h
  rw [Char.ofNat_toNat] at this
  exact this

theorem caseNeutral_toLower (c : Char) (h : c.toNat < 128) : caseNeutral Char.toLower c := by
  have := ascii_toLower_neutral c.toNat h
  rw [Char.ofNat_toNat] at this
  exact this

theorem detectAIPatterns_map (f : Char → Char) (text : Str)
    (hs : ∀ c ∈ text, caseNeutral f c) :
    ∃ r r1 : AIDetection,
      detectAIPatterns text = some r
      ∧ detectAIPatterns (text.map f) = some r1
      ∧ r1.matchCount = r.matchCount
      ∧ r1.aiLikelihood = r.aiLikelihood
      ∧ r1.assessment = r.assessment := by
  refine ⟨_, _, detectAIPatterns_eq text, detectAIPatterns_eq (text.map f), ?_, ?_, ?_⟩
  · exact totalMatchCount_map f text hs
  · simp only [totalMatchCount_map f text hs, wordCount_map f text hs]
  · simp only [totalMatchCount_map f text hs, wordCount_map f text hs]

/-- C26: for every ASCII text, `detectAIPatterns` returns the same `matchCount`, the
same `aiLikelihood` and the same `assessment` for the text, for its upper-cased form
and for its lower-cased form. -/
theorem detectAIPatterns_case_insensitive (text : Str) (hascii : ∀ c ∈ text, c.toNat < 128) :
    ∃ r upper lower : AIDetection,
      detectAIPatterns text = some r
      ∧ detectAIPatterns (asciiUpperCase text) = some upper
      ∧ detectAIPatterns (asciiLowerCase text) = some lower
      ∧ upper.matchCount = r.matchCount
      ∧ upper.aiLikelihood = r.aiLikelihood
      ∧ upper.assessment = r.assessment
      ∧ lower.matchCount = r.matchCount
      ∧ lower.aiLikelihood = r.aiLikelihood
      ∧ lower.assessment = r.assessment := by
  obtain ⟨r, u, h1, h2, h3, h4, h5⟩ :=
    detectAIPatterns_map Char.toUpper text (fun c hc => caseNeutral_toUpper c (hascii c hc))
  obtain ⟨r2, l, k1, k2, k3, k4, k5⟩ :=
    detectAIPatterns_map Char.toLower text (fun c hc => caseNeutral_toLower c (hascii c hc))
  have e : r2 = r := by
    rw [h1] at k1
    exact (Option.some.inj k1).symm
  subst e
  exact ⟨r2, u, l, h1, h2, k2, h3, h4, h5, k3, k4, k5⟩

set_option maxRecDepth 100000 in
/-- Witness for C26: a text in mixed case with one match. -/
theorem detectAIPatterns_case_insensitive_witness :
    ∃ r upper lower : AIDetection,
      detectAIPatterns "In Order To win".toList = some r
      ∧ detectAIPatterns "IN ORDER TO WIN".toList = some upper
      ∧ detectAIPatterns "in order to win".toList = some lower
      ∧ r.matchCount = 1
      ∧ upper.matchCount = 1
      ∧ lower.matchCount = 1
      ∧ upper.aiLikelihood = r.aiLikelihood
      ∧ lower.assessment = r.assessment := by
  obtain ⟨r, u, l, h1, h2, h3, h4, h5, _, h7, _, h9⟩ :=
    detectAIPatterns_case_insensitive "In Order To win".toList (by decide)
  have e1 : asciiUpperCase "In Order To win".toList = "IN ORDER TO WIN".toList := by decide
  have e2 : asciiLowerCase "In Order To win".toList = "in order to win".toList := by decide
  rw [e1] at h2
  rw [e2] at h3
  have hm : r.matchCount = 1 := by
    have := detectAIPatterns_eq "In Order To win".toList
    rw [h1] at this
    have ht : totalMatchCount "In Order To win".toList AI_PATTERNS = 1 := by decide
    rw [Option.some.inj this, ht]
  exact ⟨r, u, l, h1, h2, h3, hm, by rw [h4, hm], by rw [h7, hm], h5, h9⟩

end Heuristics
